import Mathlib

/-!
Verification development for the AfricasVoices SocialMediaTools repository.

The repository is a small Python client for a social network's graph API
(`src/social_media_tools/facebook/facebook_client.py`) together with record
transformers (`src/social_media_tools/facebook/facebook_utils.py`).  This file
gives a shallow embedding of those functions in Lean and proves the spec's
claims about them.

Modelling conventions:
- Python JSON-like values are the inductive type `Json`; Python dicts are
  insertion-ordered association lists (`List (String × α)`) with `dictGet`
  modelling `d[k]` lookup and `dictSet` modelling `d[k] = v` assignment
  (replace in place when the key is present, append otherwise — Python dict
  semantics).
- A Python call that can raise or exit is embedded as a `PyOutcome` value:
  `ok` is a normal return, `exitNonZero` models `exit(1)` after logging,
  `keyError` an uncaught `KeyError`, `assertionError` a failed `assert`,
  `valueError` a `ValueError` and `typeError` a `TypeError`.
- The HTTP layer (the `requests` library) is modelled by a `Network` value
  giving the JSON body the upstream returns for each request; fetching has no
  other observable effect in the code under verification.
- Logging calls (`log.info` etc.) have no effect on the data flow and are not
  modelled.
-/

/-- JSON-like values as handled by the Python code: the result of
`response.json()` and the records inside it. Objects are insertion-ordered
association lists, as Python dicts are. -/
inductive Json where
  | null : Json
  | bool : Bool → Json
  | num : Int → Json
  | str : String → Json
  | arr : List Json → Json
  | obj : List (String × Json) → Json

/-- Python dict lookup `d[k]` on an association list, returning `none` where
Python would raise `KeyError`: the value at the first matching key. -/
def dictGet {α : Type} : List (String × α) → String → Option α
  | [], _ => none
  | (k', v) :: rest, k => if k' = k then some v else dictGet rest k

/-- Python dict assignment `d[k] = v` on an association list: replaces the
value at the first matching key in place, appending the pair when the key is
absent (Python dicts keep the original insertion position on update). -/
def dictSet {α : Type} : List (String × α) → String → α → List (String × α)
  | [], k, v => [(k, v)]
  | (k', v') :: rest, k, v =>
      if k' = k then (k', v) :: rest else (k', v') :: dictSet rest k v

/-- Outcome of running a piece of the Python code: a normal return, a
`exit(1)` (after logging an error), or an uncaught exception of the kind the
code can raise. -/
inductive PyOutcome (α : Type) where
  | ok : α → PyOutcome α
  | exitNonZero : PyOutcome α
  | keyError : String → PyOutcome α
  | assertionError : PyOutcome α
  | valueError : PyOutcome α
  | typeError : PyOutcome α
  | outOfFuel : PyOutcome α
deriving Repr, DecidableEq

/-- The part of an upstream JSON response body that
`FacebookClient._make_paged_get_request` inspects: the optional `data` field
(a list of records — the code checks its presence with `"data" not in
response.json()` and then reads it), and the optional `paging` object with its
optional `next` cursor URL.  `paging? = none` models a body with no `paging`
key at all; `paging? = some next?` models a `paging` object whose `next` entry
is `next?`. -/
structure FbResponse where
  data? : Option (List Json)
  paging? : Option (Option String)

/-- The upstream HTTP layer as the code observes it: `page_response endpoint
params` is the JSON body `requests.get(_BASE_URL + endpoint, params).json()`
of the initial request, and `url_response url` is the body
`requests.get(url).json()` of a follow-up request to an absolute cursor URL. -/
structure Network where
  page_response : String → List (String × String) → FbResponse
  url_response : String → FbResponse

/-- The `while next_url is not None` loop of
`FacebookClient._make_paged_get_request` (facebook_client.py lines 61-69):
fetch `next_url`, exit non-zero if the body lacks `data`, extend the
accumulated records, then read `response.json()["paging"].get("next")` — a
plain `["paging"]` index that raises `KeyError` when the body has no `paging`
key.  `fuel` bounds the number of iterations of the unbounded Python loop. -/
def pagedLoop (fetch : String → FbResponse) : Nat → String → List Json → PyOutcome (List Json)
  | 0, _, _ => .outOfFuel
  | fuel + 1, url, acc =>
      let r := fetch url
      match r.data? with
      | none => .exitNonZero
      | some d =>
          match r.paging? with
          | none => .keyError "paging"
          | some next? =>
              match next? with
              | none => .ok (acc ++ d)
              | some u => pagedLoop fetch fuel u (acc ++ d)

/-- `FacebookClient._make_paged_get_request(endpoint, params)` (facebook_client.py
lines 46-70): copy the params, add the access token, issue the first GET; if
the body lacks `data`, log and `exit(1)`; otherwise take the first `data` list
and follow the chain of `paging.next` cursors, concatenating every page's
`data`.  On the first page the cursor is read with
`response.json().get("paging", {}).get("next")`, which tolerates a missing
`paging` key. -/
def make_paged_get_request (net : Network) (access_token : String) (fuel : Nat)
    (endpoint : String) (params : List (String × String)) : PyOutcome (List Json) :=
  let sent := dictSet params "access_token" access_token
  let r := net.page_response endpoint sent
  match r.data? with
  | none => .exitNonZero
  | some d =>
      match r.paging?.bind id with
      | none => .ok d
      | some u => pagedLoop net.url_response fuel u d

/-- A cursor chain for the follow-up fetches: `chain` lists, in fetch order,
the absolute URL of each page after the first together with that page's `data`
records; each page's `paging.next` points at the next page's URL, and the last
page's `paging.next` is absent (ending the loop). -/
def FetchChain (fetch : String → FbResponse) : List (String × List Json) → Prop
  | [] => True
  | (u, d) :: rest =>
      fetch u = ⟨some d, some (rest.head?.map Prod.fst)⟩ ∧ FetchChain fetch rest

/-- Python `datetime.datetime` as the code uses it: civil fields plus an
optional fixed UTC offset in whole minutes (`none` models a naive datetime,
`some o` an aware one whose `utcoffset()` is `o` minutes).  Python restricts
years to 1..9999 and offsets to less than a day; `PyDatetime.wf` captures that
domain, on which the model agrees with Python. -/
structure PyDatetime where
  year : Nat
  month : Nat
  day : Nat
  hour : Nat
  minute : Nat
  second : Nat
  microsecond : Nat
  offsetMinutes : Option Int
deriving Repr, DecidableEq

/-- Gregorian leap-year rule. -/
def isLeap (y : Nat) : Bool := y % 4 == 0 && (y % 100 != 0 || y % 400 == 0)

/-- Number of days in a month of the proleptic Gregorian calendar. -/
def daysInMonth (y m : Nat) : Nat :=
  if m = 2 then (if isLeap y then 29 else 28)
  else if m = 4 ∨ m = 6 ∨ m = 9 ∨ m = 11 then 30 else 31

/-- Whether an optional UTC offset is within Python's allowed range
(strictly less than one day, i.e. at most 1439 whole minutes). -/
def offsetOk : Option Int → Bool
  | none => true
  | some off => off.natAbs ≤ 1439

/-- The domain of datetimes Python's `datetime.datetime` can represent: field
ranges as validated by the `datetime` constructor. -/
def PyDatetime.wf (d : PyDatetime) : Prop :=
  1 ≤ d.year ∧ d.year ≤ 9999 ∧ 1 ≤ d.month ∧ d.month ≤ 12 ∧
    1 ≤ d.day ∧ d.day ≤ daysInMonth d.year d.month ∧
    d.hour ≤ 23 ∧ d.minute ≤ 59 ∧ d.second ≤ 59 ∧ d.microsecond ≤ 999999 ∧
    offsetOk d.offsetMinutes = true

instance (d : PyDatetime) : Decidable d.wf := by
  unfold PyDatetime.wf; infer_instance

/-- The decimal digit character for `n < 10`. -/
def decDigit (n : Nat) : Char := Char.ofNat (48 + n)

/-- A number printed as exactly two zero-padded decimal digits, as Python's
`datetime.isoformat` prints month, day, hour, minute, second and offset
components (all less than 100 on the Python domain). -/
def pad2 (n : Nat) : List Char := [decDigit (n / 10 % 10), decDigit (n % 10)]

/-- A number printed as exactly four zero-padded decimal digits (the year,
at most 9999 on the Python domain). -/
def pad4 (n : Nat) : List Char :=
  [decDigit (n / 1000 % 10), decDigit (n / 100 % 10), decDigit (n / 10 % 10),
    decDigit (n % 10)]

/-- A number printed as exactly six zero-padded decimal digits (the
microseconds, at most 999999). -/
def pad6 (n : Nat) : List Char :=
  [decDigit (n / 100000 % 10), decDigit (n / 10000 % 10), decDigit (n / 1000 % 10),
    decDigit (n / 100 % 10), decDigit (n / 10 % 10), decDigit (n % 10)]

/-- The date-time part of Python's `datetime.isoformat()`:
`YYYY-MM-DDTHH:MM:SS`, followed by `.ffffff` exactly when the microsecond
field is non-zero (the default `timespec` is `auto`). -/
def isoChars (d : PyDatetime) : List Char :=
  pad4 d.year ++ '-' :: pad2 d.month ++ '-' :: pad2 d.day ++
    'T' :: pad2 d.hour ++ ':' :: pad2 d.minute ++ ':' :: pad2 d.second ++
    (if d.microsecond = 0 then [] else '.' :: pad6 d.microsecond)

/-- The offset part of Python's `datetime.isoformat()`: empty for a naive
datetime, otherwise the fixed offset printed as `+HH:MM` or `-HH:MM`. -/
def offsetChars : Option Int → List Char
  | none => []
  | some off =>
      (if off < 0 then '-' else '+') ::
        (pad2 (off.natAbs / 60) ++ ':' :: pad2 (off.natAbs % 60))

/-- Python's `datetime.isoformat()` (default separator and timespec). -/
def isoformat (d : PyDatetime) : String :=
  String.mk (isoChars d ++ offsetChars d.offsetMinutes)

/-- Whether `pat` is a prefix of the character list. -/
def matchesAt : List Char → List Char → Bool
  | [], _ => true
  | _ :: _, [] => false
  | p :: ps, c :: cs => p == c && matchesAt ps cs

/-- Python's `str.replace(old, new)` on character lists for a non-empty
`old`: scan left to right, replacing each non-overlapping occurrence of `pat`
by `rep`. -/
def pyReplaceAux (pat rep : List Char) : List Char → List Char
  | [] => []
  | c :: rest =>
      if matchesAt pat (c :: rest) then
        rep ++ pyReplaceAux pat rep (List.drop (pat.length - 1) rest)
      else
        c :: pyReplaceAux pat rep rest
termination_by l => l.length
decreasing_by
  · simp only [List.length_drop, List.length_cons]; omega
  · simp

/-- Python's `str.replace(old, new)` for a non-empty `old`. -/
def pyReplace (s pat rep : String) : String :=
  String.mk (pyReplaceAux pat.toList rep.toList s.toList)

/-- Days since 1970-01-01 of a proleptic Gregorian civil date
(Howard Hinnant's `days_from_civil` algorithm). -/
def daysFromCivil (y m d : Nat) : Int :=
  let y' : Int := if m ≤ 2 then (y : Int) - 1 else (y : Int)
  let era : Int := Int.fdiv y' 400
  let yoe : Nat := (y' - era * 400).toNat
  let mp : Nat := if 2 < m then m - 3 else m + 9
  let doy : Nat := (153 * mp + 2) / 5 + d - 1
  let doe : Nat := yoe * 365 + yoe / 4 - yoe / 100 + doy
  era * 146097 + (doe : Int) - 719468

/-- Civil date (year, month, day) of a count of days since 1970-01-01
(Howard Hinnant's `civil_from_days` algorithm). -/
def civilFromDays (z : Int) : Nat × Nat × Nat :=
  let z' := z + 719468
  let era := Int.fdiv z' 146097
  let doe : Nat := (Int.emod z' 146097).toNat
  let yoe : Nat := (doe - doe / 1460 + doe / 36524 - doe / 146096) / 365
  let doy : Nat := doe - (365 * yoe + yoe / 4 - yoe / 100)
  let mp : Nat := (5 * doy + 2) / 153
  let dd : Nat := doy - (153 * mp + 2) / 5 + 1
  let m : Nat := if mp < 10 then mp + 3 else mp - 9
  let y : Int := (yoe : Int) + era * 400 + (if m ≤ 2 then 1 else 0)
  (y.toNat, m, dd)

/-- Python's `date.astimezone(pytz.utc)`: convert to the UTC instant and
attach the UTC timezone.  An aware datetime is shifted by its own offset; a
naive one is interpreted in the host's local timezone, modelled by the
`localOffset` parameter (in minutes).  Seconds and microseconds are unchanged
because offsets are whole minutes. -/
def pyAstimezoneUtc (localOffset : Int) (d : PyDatetime) : PyDatetime :=
  let off := d.offsetMinutes.getD localOffset
  let total : Int :=
    daysFromCivil d.year d.month d.day * 1440 + (d.hour : Int) * 60 + (d.minute : Int) - off
  let days := Int.fdiv total 1440
  let rem : Nat := (Int.emod total 1440).toNat
  let c := civilFromDays days
  ⟨c.1, c.2.1, c.2.2, rem / 60, rem % 60, d.second, d.microsecond, some 0⟩

/-- `FacebookClient._date_to_facebook_time(date)` (facebook_client.py lines
21-33): `date.astimezone(pytz.utc).isoformat().replace("+00:00", "Z")`. -/
def date_to_facebook_time (localOffset : Int) (date : PyDatetime) : String :=
  pyReplace (isoformat (pyAstimezoneUtc localOffset date)) "+00:00" "Z"

/-- Modelled from the spec's words, for comparison with
`date_to_facebook_time`: the datetime "converted into the network's expected
UTC-with-Z timestamp format", i.e. the UTC instant formatted as an ISO 8601
string with a `Z` suffix in place of the `+00:00` offset. -/
def facebook_time_spec (localOffset : Int) (date : PyDatetime) : String :=
  String.mk (isoChars (pyAstimezoneUtc localOffset date) ++ ['Z'])

/-- Numeric value of a decimal digit character. -/
def digitVal (c : Char) : Nat := c.toNat - 48

/-- Two decimal digit characters read as a number below 100. -/
def read2 (a b : Char) : Option Nat :=
  if a.isDigit && b.isDigit then some (10 * digitVal a + digitVal b) else none

/-- Four decimal digit characters read as a number below 10000. -/
def read4 (a b c d : Char) : Option Nat :=
  if a.isDigit && b.isDigit && c.isDigit && d.isDigit then
    some (1000 * digitVal a + 100 * digitVal b + 10 * digitVal c + digitVal d)
  else none

/-- Consume exactly two digit characters from the front of the input. -/
def take2 : List Char → Option (Nat × List Char)
  | a :: b :: rest => (read2 a b).map (fun n => (n, rest))
  | _ => none

/-- Consume exactly four digit characters from the front of the input. -/
def take4 : List Char → Option (Nat × List Char)
  | a :: b :: c :: d :: rest => (read4 a b c d).map (fun n => (n, rest))
  | _ => none

/-- Consume one expected literal character from the front of the input. -/
def expectChar (ch : Char) : List Char → Option (List Char)
  | c :: rest => if c = ch then some rest else none
  | [] => none

/-- Parse the timezone designator at the end of an ISO 8601 string: absent
(naive), `Z`/`z` (UTC), or a numeric offset `±HH:MM`, `±HHMM` or `±HH` with
hours below 24 and minutes below 60, as `dateutil.parser.isoparse` accepts. -/
def parseOffsetTail (sign : Int) : List Char → Option Int
  | [h1, h2, ':', m1, m2] => do
      let h ← read2 h1 h2
      let m ← read2 m1 m2
      if h ≤ 23 ∧ m ≤ 59 then some (sign * ((h : Int) * 60 + (m : Int))) else none
  | [h1, h2, m1, m2] => do
      let h ← read2 h1 h2
      let m ← read2 m1 m2
      if h ≤ 23 ∧ m ≤ 59 then some (sign * ((h : Int) * 60 + (m : Int))) else none
  | [h1, h2] => do
      let h ← read2 h1 h2
      if h ≤ 23 then some (sign * ((h : Int) * 60)) else none
  | _ => none

/-- Parse the optional timezone designator, distinguishing "no designator"
(`some none`, a naive datetime) from a parse error (`none`). -/
def parseOffset : List Char → Option (Option Int)
  | [] => some none
  | ['Z'] => some (some 0)
  | ['z'] => some (some 0)
  | '+' :: rest => (parseOffsetTail 1 rest).map some
  | '-' :: rest => (parseOffsetTail (-1) rest).map some
  | _ => none

/-- Parse the optional fractional-seconds part followed by the optional
timezone designator: a `.` introduces one or more digits, of which the first
six (scaled to microseconds) are kept, as `dateutil.parser.isoparse` does. -/
def parseFracOffset : List Char → Option (Nat × Option Int)
  | '.' :: rest =>
      let ds := rest.takeWhile Char.isDigit
      if ds.length = 0 then none
      else
        let d6 := ds.take 6
        let micro := (d6.foldl (fun a c => 10 * a + digitVal c) 0) * 10 ^ (6 - d6.length)
        (parseOffset (rest.dropWhile Char.isDigit)).map (fun o => (micro, o))
  | rest => (parseOffset rest).map (fun o => (0, o))

/-- The model of `dateutil.parser.isoparse` on full date-time strings
`YYYY-MM-DDTHH:MM:SS[.f+][Z|±HH[:]MM|±HH]` — the only shapes this repository
feeds it (the network's timestamps and `isoformat` output).  Returns `none`
where `isoparse` raises `ValueError` (malformed input or out-of-range
fields); date-only and basic-format inputs are outside the model. -/
def pyIsoparse (s : String) : Option PyDatetime := do
  let (y, cs) ← take4 s.toList
  let cs ← expectChar '-' cs
  let (mo, cs) ← take2 cs
  let cs ← expectChar '-' cs
  let (dd, cs) ← take2 cs
  let cs ← expectChar 'T' cs
  let (h, cs) ← take2 cs
  let cs ← expectChar ':' cs
  let (mi, cs) ← take2 cs
  let cs ← expectChar ':' cs
  let (sec, cs) ← take2 cs
  let (micro, off) ← parseFracOffset cs
  if 1 ≤ y ∧ 1 ≤ mo ∧ mo ≤ 12 ∧ 1 ≤ dd ∧ dd ≤ daysInMonth y mo ∧
      h ≤ 23 ∧ mi ≤ 59 ∧ sec ≤ 59 then
    some ⟨y, mo, dd, h, mi, sec, micro, off⟩
  else none

/-- Modelled from the spec: the external validator
`core_data_modules.data_models.validators.validate_utc_iso_string` (a
dependency of this repository, its code not under src/).  Per the spec's
words it checks that a value is "a validated UTC ISO-8601 string": the string
parses as ISO 8601 and carries an explicit UTC (zero) offset.  `false` models
the validator raising at the call site. -/
def validate_utc_iso_string (s : String) : Bool :=
  match pyIsoparse s with
  | some d => decide (d.offsetMinutes = some 0)
  | none => false

/-- A post attachment as `clean_post_type` reads it: the code accesses only
`attachment["type"]`. -/
structure Attachment where
  type : String
deriving Repr, DecidableEq

/-- A post as `clean_post_type` reads it: `attachments` models the list
`post["attachments"]["data"]` (the code indexes both keys directly). -/
structure Post where
  attachments : List Attachment
deriving Repr, DecidableEq

/-- The body of the `for attachment in post["attachments"]["data"]` loop of
`clean_post_type` (facebook_utils.py lines 19-30), carrying the running
`post_type` value: assert the attachment type is recognized; for a video type
assert `post_type` is "video" or None and set it to "video"; for "photo"
assert `post_type` is "photo" or None and set it to "photo". -/
def clean_post_type_loop : Option String → List Attachment → PyOutcome (Option String)
  | post_type, [] => .ok post_type
  | post_type, a :: rest =>
      if a.type = "video_inline" ∨ a.type = "video_direct_response" ∨ a.type = "photo" then
        if a.type = "video_inline" ∨ a.type = "video_direct_response" then
          if post_type = some "video" ∨ post_type = none then
            clean_post_type_loop (some "video") rest
          else .assertionError
        else
          if post_type = some "photo" ∨ post_type = none then
            clean_post_type_loop (some "photo") rest
          else .assertionError
      else .assertionError

/-- `clean_post_type(post)` (facebook_utils.py lines 10-30): start with
`post_type = None`, fold the loop over the attachment list, and return the
final `post_type`. -/
def clean_post_type (post : Post) : PyOutcome (Option String) :=
  clean_post_type_loop none post.attachments

/-- One entry of a metric's `values` list as the code reads it: the code
accesses only `m["values"][i]["value"]`, so an entry is modelled by its
`value` field. -/
structure MetricValue where
  value : Json

/-- One raw metric record as the code reads it: its `name` and its `values`
list. -/
structure Metric where
  name : String
  values : List MetricValue

/-- The body of an insights API response as
`FacebookClient.get_raw_metrics_for_post` inspects it: the optional `data`
field. -/
structure InsightsResponse where
  data? : Option (List Metric)

/-- `FacebookClient.get_raw_metrics_for_post(post_id, metrics)`
(facebook_client.py lines 172-188): a single (non-paged) GET whose body is
indexed with a plain `["data"]` — raising `KeyError` when the field is
absent, with no logging and no `exit` (`_make_get_request` performs no
check). -/
def get_raw_metrics_for_post (resp : InsightsResponse) : PyOutcome (List Metric) :=
  match resp.data? with
  | none => .keyError "data"
  | some d => .ok d

/-- The `for m in raw_metrics` loop of `FacebookClient.get_metrics_for_post`
(facebook_client.py lines 206-212): assert each metric has exactly one value,
then store `cleaned_metrics[m["name"]] = m["values"][0]["value"]`. -/
def metrics_loop : List (String × Json) → List Metric → PyOutcome (List (String × Json))
  | acc, [] => .ok acc
  | acc, m :: rest =>
      match m.values with
      | [v] => metrics_loop (dictSet acc m.name v.value) rest
      | _ => .assertionError

/-- `FacebookClient.get_metrics_for_post(post_id, metrics)`
(facebook_client.py lines 190-214): fetch the raw metrics, then flatten them
to a name-to-value dict, asserting each metric has exactly one value. -/
def get_metrics_for_post (resp : InsightsResponse) : PyOutcome (List (String × Json)) :=
  match get_raw_metrics_for_post resp with
  | .ok raw => metrics_loop [] raw
  | .exitNonZero => .exitNonZero
  | .keyError k => .keyError k
  | .assertionError => .assertionError
  | .valueError => .valueError
  | .typeError => .typeError
  | .outOfFuel => .outOfFuel

/-- A raw comment as returned by the comments endpoint: a JSON object,
i.e. an insertion-ordered dict of fields. -/
structure Comment where
  fields : List (String × Json)

/-- The author id `comment["from"]["id"]` as the conversion code reads it:
`none` models the `KeyError` raised when `from` or `id` is absent (the
modelled domain has string ids, as the network returns). -/
def Comment.fromId? (c : Comment) : Option String :=
  match dictGet c.fields "from" with
  | some (.obj fs) =>
      match dictGet fs "id" with
      | some (.str s) => some s
      | _ => none
  | _ => none

/-- The successful effect of facebook_utils.py line 43 on a comment:
`comment["created_time"] = isoparse(comment["created_time"]).isoformat()`.
Returns the comment unchanged when the line would raise instead. -/
def update_time (c : Comment) : Comment :=
  match dictGet c.fields "created_time" with
  | some (.str ct) =>
      match pyIsoparse ct with
      | some dt => ⟨dictSet c.fields "created_time" (.str (isoformat dt))⟩
      | none => c
  | _ => c

/-- Lines 43-44 of facebook_utils.py for one comment: re-serialize
`created_time` through `isoparse(...).isoformat()` (a missing key raises
`KeyError`, a non-string raises `TypeError`, a malformed string raises
`ValueError`), then run `validators.validate_utc_iso_string` on the result
(which raises — modelled as `assertionError` — when the string is not a UTC
ISO string). -/
def reserialize_time (c : Comment) : PyOutcome Comment :=
  match dictGet c.fields "created_time" with
  | some (.str ct) =>
      match pyIsoparse ct with
      | some dt =>
          if validate_utc_iso_string (isoformat dt) then
            .ok ⟨dictSet c.fields "created_time" (.str (isoformat dt))⟩
          else .assertionError
      | none => .valueError
  | some _ => .typeError
  | none => .keyError "created_time"

/-- Lines 46-50 of facebook_utils.py: the `comment_dict` built for one
comment — `{"avf_facebook_id": uuid}` followed by
`comment_dict[f"{dataset_name}.{k}"] = v` for every field `(k, v)` of the
(already re-serialized) comment, in iteration order. -/
def mk_comment_dict (dataset_name uuid : String) (c : Comment) : List (String × Json) :=
  c.fields.foldl (fun acc kv => dictSet acc (dataset_name ++ "." ++ kv.1) kv.2)
    [("avf_facebook_id", Json.str uuid)]

/-- The pseudonymous id `facebook_to_uuid_lut[comment["from"]["id"]]` of a
comment, with `""` as an (unreached, see `convert_loop_ok`) default. -/
def lut_uuid (lut : String → Option String) (c : Comment) : String :=
  (c.fromId?.bind lut).getD ""

/-- The `for comment in raw_comments` loop of
`convert_facebook_comments_to_traced_data` (facebook_utils.py lines 42-54):
for each comment re-serialize and validate its timestamp, resolve the
author's pseudonymous id through the batch-lookup result `lut` (a missing
entry raises `KeyError`), build the namespaced `comment_dict`, and collect
the per-comment dicts.  The second component of the result is the mutated
`raw_comments` list (each comment's `created_time` overwritten in place).
The `TracedData`/`Metadata` wrapper adds only provenance (actor, call site,
wall-clock time) around each dict and is not part of the data model. -/
def convert_loop (dataset_name : String) (lut : String → Option String) :
    List Comment → PyOutcome (List (List (String × Json)) × List Comment)
  | [] => .ok ([], [])
  | c :: rest =>
      match reserialize_time c with
      | .ok c2 =>
          match c2.fromId? with
          | some fid =>
              match lut fid with
              | some uuid =>
                  match convert_loop dataset_name lut rest with
                  | .ok (ts, cs2) =>
                      .ok (mk_comment_dict dataset_name uuid c2 :: ts, c2 :: cs2)
                  | .exitNonZero => .exitNonZero
                  | .keyError k => .keyError k
                  | .assertionError => .assertionError
                  | .valueError => .valueError
                  | .typeError => .typeError
                  | .outOfFuel => .outOfFuel
              | none => .keyError fid
          | none => .keyError "from"
      | .exitNonZero => .exitNonZero
      | .keyError k => .keyError k
      | .assertionError => .assertionError
      | .valueError => .valueError
      | .typeError => .typeError
      | .outOfFuel => .outOfFuel

/-- The set comprehension on facebook_utils.py line 36: every comment's
`comment["from"]["id"]`, raising `KeyError` (modelled by `none`) when any
comment lacks one. -/
def all_from_ids (cs : List Comment) : Option (List String) :=
  cs.mapM Comment.fromId?

/-- `convert_facebook_comments_to_traced_data(user, dataset_name,
raw_comments, facebook_uuid_table)` (facebook_utils.py lines 33-58): collect
every author id (line 36), resolve them through the external uuid table's
`data_to_uuid_batch` — whose result is modelled by `lut` — then run the
conversion loop.  `user` only feeds the provenance metadata and is not
modelled. -/
def convert_facebook_comments_to_traced_data (dataset_name : String)
    (lut : String → Option String) (raw_comments : List Comment) :
    PyOutcome (List (List (String × Json)) × List Comment) :=
  match all_from_ids raw_comments with
  | none => .keyError "from"
  | some _ => convert_loop dataset_name lut raw_comments

/-- The request params built by `FacebookClient.get_posts_published_by_page`
(facebook_client.py lines 118-125): `fields` joined with commas, the fixed
page size `limit=100` (`_MAX_RESULTS_PER_PAGE`, stringified by the HTTP
layer), then `since`/`until` added exactly when `created_after`/
`created_before` is not None, each converted by `_date_to_facebook_time`.
`loc` is the host local timezone offset used by Python for naive datetimes. -/
def posts_params (fields : List String) (created_after created_before : Option PyDatetime)
    (loc : Int) : List (String × String) :=
  let ps : List (String × String) :=
    [("fields", String.intercalate "," fields), ("limit", "100")]
  let ps := match created_after with
    | none => ps
    | some d => dictSet ps "since" (date_to_facebook_time loc d)
  match created_before with
  | none => ps
  | some d => dictSet ps "until" (date_to_facebook_time loc d)

/-- `FacebookClient.get_posts_published_by_page(page_id, fields,
created_after, created_before)` (facebook_client.py lines 92-133): a paged
GET of `/{page_id}/published_posts` with the params above; the returned value
is the paged request's record list. -/
def get_posts_published_by_page (net : Network) (access_token : String) (fuel : Nat)
    (loc : Int) (page_id : String) (fields : List String)
    (created_after created_before : Option PyDatetime) : PyOutcome (List Json) :=
  make_paged_get_request net access_token fuel ("/" ++ page_id ++ "/published_posts")
    (posts_params fields created_after created_before loc)

/-- The request params of `FacebookClient.get_all_comments_on_post`
(facebook_client.py lines 152-159): joined fields, the fixed page size and
the stream filter (which includes nested replies). -/
def comments_params (fields : List String) : List (String × String) :=
  [("fields", String.intercalate "," fields), ("limit", "100"), ("filter", "stream")]

/-- `FacebookClient.get_all_comments_on_post(post_id, fields,
raw_export_log_file)` (facebook_client.py lines 135-170): a paged GET of
`/{post_id}/comments`; the optional raw-export log file only mirrors the
returned list to disk and does not affect the returned value, so it is not
modelled. -/
def get_all_comments_on_post (net : Network) (access_token : String) (fuel : Nat)
    (post_id : String) (fields : List String) : PyOutcome (List Json) :=
  make_paged_get_request net access_token fuel ("/" ++ post_id ++ "/comments")
    (comments_params fields)

/-- Witness data for C1: a first page and a two-page cursor chain, three
pages in all. -/
def w1d0 : List Json := [Json.str "a1", Json.str "a2"]

/-- Witness cursor chain for C1. -/
def w1chain : List (String × List Json) :=
  [("u1", [Json.str "b1"]), ("u2", [Json.str "c1"])]

/-- Witness network for C1: three mock pages linked by cursors. -/
def w1net : Network where
  page_response := fun _ _ => ⟨some w1d0, some (some "u1")⟩
  url_response := fun u =>
    if u = "u1" then ⟨some [Json.str "b1"], some (some "u2")⟩
    else ⟨some [Json.str "c1"], some none⟩

/-- Network for C10: the page after the first has a `data` field but no
`paging` field at all. -/
def c10net : Network where
  page_response := fun _ _ => ⟨some [Json.str "a"], some (some "u1")⟩
  url_response := fun _ => ⟨some [Json.str "b"], none⟩

/-- Network for C10: the same `paging` absence on the first page. -/
def c10netFirst : Network where
  page_response := fun _ _ => ⟨some [Json.str "a"], none⟩
  url_response := fun _ => ⟨some [Json.str "b"], none⟩

/-- Response and network for C2: an upstream body with no `data` field. -/
def c2net : Network where
  page_response := fun _ _ => ⟨none, none⟩
  url_response := fun _ => ⟨none, none⟩

/-- The single value `m["values"][0]["value"]` of a metric (meaningful when
the metric has exactly one value, as `get_metrics_for_post` asserts). -/
def metric_value1 (m : Metric) : Json :=
  match m.values with
  | [v] => v.value
  | _ => Json.null

/-- The dict built by the `get_metrics_for_post` loop when every metric has
exactly one value. -/
def cleaned_metrics (raw : List Metric) : List (String × Json) :=
  raw.foldl (fun a m => dictSet a m.name (metric_value1 m)) []

/-- A comment whose `created_time` is a string that parses as an ISO 8601
timestamp carrying an explicit UTC (zero) offset — the shape the network
actually returns (`%Y-%m-%dT%H:%M:%S+0000`). -/
def GoodTime (c : Comment) : Prop :=
  ∃ ct dt, dictGet c.fields "created_time" = some (Json.str ct) ∧
    pyIsoparse ct = some dt ∧ dt.offsetMinutes = some 0

/-- A comment the conversion can process end to end: a good timestamp and an
author id present in the batch-lookup result. -/
def GoodComment (lut : String → Option String) (c : Comment) : Prop :=
  GoodTime c ∧ ∃ fid uuid, c.fromId? = some fid ∧ lut fid = some uuid

/-- Concrete comment for the conversion witnesses: a network-shaped
timestamp (UTC `+0000` offset) and a known author id. -/
def c5c : Comment :=
  ⟨[("created_time", Json.str "2020-01-01T10:00:00+0000"),
    ("from", Json.obj [("id", Json.str "u1")]),
    ("message", Json.str "hi")]⟩

/-- Concrete comment whose author id is unknown to the lookup table. -/
def c5unknown : Comment :=
  ⟨[("created_time", Json.str "2020-01-01T10:00:00+0000"),
    ("from", Json.obj [("id", Json.str "u2")]),
    ("message", Json.str "yo")]⟩

/-- Concrete batch-lookup result: only author `u1` is known. -/
def c5lut : String → Option String := fun s => if s = "u1" then some "uuid1" else none

/-- The comment refuting C8 as stated: its timestamp carries a `+03:00`
offset. -/
def c8bad : Comment :=
  ⟨[("created_time", Json.str "2020-01-01T10:00:00+03:00"),
    ("from", Json.obj [("id", Json.str "u1")])]⟩

/-- Comment with a UTC (`+0000`) timestamp for the C8 witness. -/
def c8good : Comment :=
  ⟨[("created_time", Json.str "2020-01-01T10:00:00+0000")]⟩

theorem dictGet_dictSet_same {α : Type} (l : List (String × α)) (k : String) (v : α) :
    dictGet (dictSet l k v) k = some v := by
  induction l with
  | nil => simp [dictGet, dictSet]
  | cons hd tl ih =>
      obtain ⟨k', v'⟩ := hd
      by_cases h : k' = k
      · simp [dictGet, dictSet, h]
      · simp [dictGet, dictSet, h, ih]

theorem dictGet_dictSet_ne {α : Type} (l : List (String × α)) (k k' : String) (v : α)
    (h : k ≠ k') : dictGet (dictSet l k v) k' = dictGet l k' := by
  induction l with
  | nil => simp [dictGet, dictSet, h]
  | cons hd tl ih =>
      obtain ⟨k'', v''⟩ := hd
      by_cases h2 : k'' = k
      · subst h2
        simp [dictGet, dictSet, h]
      · simp [dictGet, dictSet, h2, ih]

theorem dictSet_keys_subset {α : Type} (l : List (String × α)) (k : String) (v : α) :
    (dictSet l k v).map Prod.fst = l.map Prod.fst ∨
      (dictSet l k v).map Prod.fst = l.map Prod.fst ++ [k] := by
  induction l with
  | nil => right; simp [dictSet]
  | cons hd tl ih =>
      obtain ⟨k', v'⟩ := hd
      by_cases h : k' = k
      · left; simp [dictSet, h]
      · rcases ih with ih | ih
        · left; simp [dictSet, h, ih]
        · right; simp [dictSet, h, ih]

theorem pagedLoop_chain (fetch : String → FbResponse) :
    ∀ (rest : List (String × List Json)) (u : String) (d : List Json)
      (fuel : Nat) (acc : List Json),
      FetchChain fetch ((u, d) :: rest) → rest.length < fuel →
      pagedLoop fetch fuel u acc = .ok (acc ++ d ++ (rest.map Prod.snd).flatten) := by
  intro rest
  induction rest with
  | nil =>
      intro u d fuel acc hchain hfuel
      obtain ⟨hf, -⟩ := hchain
      obtain ⟨fuel', rfl⟩ : ∃ f, fuel = f + 1 := ⟨fuel - 1, by omega⟩
      rw [pagedLoop, hf]
      simp
  | cons hd' tl' ih =>
      intro u d fuel acc hchain hfuel
      obtain ⟨u', d'⟩ := hd'
      obtain ⟨hf, hrest⟩ := hchain
      obtain ⟨fuel', rfl⟩ : ∃ f, fuel = f + 1 := ⟨fuel - 1, by omega⟩
      rw [pagedLoop, hf]
      simp only [List.head?_cons, Option.map_some']
      rw [ih u' d' fuel' (acc ++ d) hrest (by simpa using Nat.lt_of_succ_lt_succ hfuel)]
      simp

theorem toList_mk (l : List Char) : (String.mk l).toList = l := rfl

theorem decDigit_facts :
    ∀ n < 10, (decDigit n).isDigit = true ∧ digitVal (decDigit n) = n ∧
      decDigit n ≠ '+' ∧ decDigit n ≠ '-' := by decide

theorem mem_pad2_ne_plus (n : Nat) : ∀ c ∈ pad2 n, c ≠ '+' := by
  intro c hc
  simp only [pad2, List.mem_cons, List.mem_singleton, List.not_mem_nil, or_false] at hc
  rcases hc with rfl | rfl
  · exact (decDigit_facts _ (Nat.mod_lt _ (by norm_num))).2.2.1
  · exact (decDigit_facts _ (Nat.mod_lt _ (by norm_num))).2.2.1

theorem mem_pad4_ne_plus (n : Nat) : ∀ c ∈ pad4 n, c ≠ '+' := by
  intro c hc
  simp only [pad4, List.mem_cons, List.not_mem_nil, or_false] at hc
  rcases hc with rfl | rfl | rfl | rfl <;>
    exact (decDigit_facts _ (Nat.mod_lt _ (by norm_num))).2.2.1

theorem mem_pad6_ne_plus (n : Nat) : ∀ c ∈ pad6 n, c ≠ '+' := by
  intro c hc
  simp only [pad6, List.mem_cons, List.not_mem_nil, or_false] at hc
  rcases hc with rfl | rfl | rfl | rfl | rfl | rfl <;>
    exact (decDigit_facts _ (Nat.mod_lt _ (by norm_num))).2.2.1

theorem mem_isoChars_ne_plus (d : PyDatetime) : ∀ c ∈ isoChars d, c ≠ '+' := by
  intro c hc
  simp only [isoChars, List.mem_append, List.mem_cons] at hc
  rcases hc with ((((((h | h) | h) | h) | h) | h) | h)
  · exact mem_pad4_ne_plus _ _ h
  · rcases h with rfl | h
    · decide
    · exact mem_pad2_ne_plus _ _ h
  · rcases h with rfl | h
    · decide
    · exact mem_pad2_ne_plus _ _ h
  · rcases h with rfl | h
    · decide
    · exact mem_pad2_ne_plus _ _ h
  · rcases h with rfl | h
    · decide
    · exact mem_pad2_ne_plus _ _ h
  · rcases h with rfl | h
    · decide
    · exact mem_pad2_ne_plus _ _ h
  · by_cases hm : d.microsecond = 0
    · simp [hm] at h
    · simp only [hm, if_neg, ite_false, List.mem_cons] at h
      rcases h with rfl | h
      · decide
      · exact mem_pad6_ne_plus _ _ h

theorem matchesAt_self : ∀ l : List Char, matchesAt l l = true := by
  intro l
  induction l with
  | nil => rfl
  | cons c rest ih => simp [matchesAt, ih]

theorem pyReplaceAux_append (pat' rep : List Char) :
    ∀ s : List Char, (∀ c ∈ s, c ≠ '+') →
      pyReplaceAux ('+' :: pat') rep (s ++ '+' :: pat') = s ++ rep := by
  intro s
  induction s with
  | nil =>
      intro _
      rw [List.nil_append, pyReplaceAux]
      rw [if_pos (matchesAt_self _)]
      simp [pyReplaceAux, List.drop_length]
  | cons c s' ih =>
      intro h
      have hc : c ≠ '+' := h c (List.mem_cons_self _ _)
      rw [List.cons_append, pyReplaceAux]
      have hm : matchesAt ('+' :: pat') (c :: (s' ++ '+' :: pat')) = false := by
        simp [matchesAt, Ne.symm hc]
      rw [if_neg (by simp [hm])]
      rw [ih (fun x hx => h x (List.mem_cons_of_mem _ hx))]
      rfl

theorem astimezone_offset (loc : Int) (d : PyDatetime) :
    (pyAstimezoneUtc loc d).offsetMinutes = some 0 := rfl

theorem date_to_facebook_time_eq_spec (loc : Int) (d : PyDatetime) :
    date_to_facebook_time loc d = facebook_time_spec loc d :=
  congrArg String.mk
    (pyReplaceAux_append ['0', '0', ':', '0', '0'] ['Z'] (isoChars (pyAstimezoneUtc loc d))
      (mem_isoChars_ne_plus _))

theorem isDigit_toNat (c : Char) (h : c.isDigit = true) : 48 ≤ c.toNat ∧ c.toNat ≤ 57 := by
  simp only [Char.isDigit, Bool.and_eq_true, decide_eq_true_eq, ge_iff_le] at h
  exact h

theorem digitVal_le (c : Char) (h : c.isDigit = true) : digitVal c ≤ 9 := by
  have := isDigit_toNat c h
  unfold digitVal
  omega

theorem read2_pad2 (n : Nat) (h : n ≤ 99) :
    read2 (decDigit (n / 10 % 10)) (decDigit (n % 10)) = some n := by
  have h1 := decDigit_facts (n / 10 % 10) (Nat.mod_lt _ (by norm_num))
  have h2 := decDigit_facts (n % 10) (Nat.mod_lt _ (by norm_num))
  simp only [read2, h1.1, h2.1, Bool.and_self, if_true, h1.2.1, h2.2.1]
  congr 1
  omega

theorem take2_pad2 (n : Nat) (h : n ≤ 99) (rest : List Char) :
    take2 (pad2 n ++ rest) = some (n, rest) := by
  simp only [pad2, List.cons_append, List.nil_append, take2, read2_pad2 n h, Option.map_some']

theorem read4_pad4 (n : Nat) (h : n ≤ 9999) :
    read4 (decDigit (n / 1000 % 10)) (decDigit (n / 100 % 10)) (decDigit (n / 10 % 10))
      (decDigit (n % 10)) = some n := by
  have h1 := decDigit_facts (n / 1000 % 10) (Nat.mod_lt _ (by norm_num))
  have h2 := decDigit_facts (n / 100 % 10) (Nat.mod_lt _ (by norm_num))
  have h3 := decDigit_facts (n / 10 % 10) (Nat.mod_lt _ (by norm_num))
  have h4 := decDigit_facts (n % 10) (Nat.mod_lt _ (by norm_num))
  simp only [read4, h1.1, h2.1, h3.1, h4.1, Bool.and_self, if_true, h1.2.1, h2.2.1,
    h3.2.1, h4.2.1]
  congr 1
  omega

theorem take4_pad4 (n : Nat) (h : n ≤ 9999) (rest : List Char) :
    take4 (pad4 n ++ rest) = some (n, rest) := by
  simp only [pad4, List.cons_append, List.nil_append, take4, read4_pad4 n h, Option.map_some']

theorem expectChar_self (c : Char) (rest : List Char) :
    expectChar c (c :: rest) = some rest := by
  simp [expectChar]

theorem pad6_foldl (n : Nat) (h : n ≤ 999999) :
    List.foldl (fun a c => 10 * a + digitVal c) 0 (pad6 n) = n := by
  have h1 := decDigit_facts (n / 100000 % 10) (Nat.mod_lt _ (by norm_num))
  have h2 := decDigit_facts (n / 10000 % 10) (Nat.mod_lt _ (by norm_num))
  have h3 := decDigit_facts (n / 1000 % 10) (Nat.mod_lt _ (by norm_num))
  have h4 := decDigit_facts (n / 100 % 10) (Nat.mod_lt _ (by norm_num))
  have h5 := decDigit_facts (n / 10 % 10) (Nat.mod_lt _ (by norm_num))
  have h6 := decDigit_facts (n % 10) (Nat.mod_lt _ (by norm_num))
  simp only [pad6, List.foldl_cons, List.foldl_nil, h1.2.1, h2.2.1, h3.2.1, h4.2.1,
    h5.2.1, h6.2.1]
  omega

theorem takeWhile_pad6_append (n : Nat) (tl : List Char)
    (h1 : List.takeWhile Char.isDigit tl = []) (h2 : List.dropWhile Char.isDigit tl = tl) :
    List.takeWhile Char.isDigit (pad6 n ++ tl) = pad6 n ∧
      List.dropWhile Char.isDigit (pad6 n ++ tl) = tl := by
  have d1 := decDigit_facts (n / 100000 % 10) (Nat.mod_lt _ (by norm_num))
  have d2 := decDigit_facts (n / 10000 % 10) (Nat.mod_lt _ (by norm_num))
  have d3 := decDigit_facts (n / 1000 % 10) (Nat.mod_lt _ (by norm_num))
  have d4 := decDigit_facts (n / 100 % 10) (Nat.mod_lt _ (by norm_num))
  have d5 := decDigit_facts (n / 10 % 10) (Nat.mod_lt _ (by norm_num))
  have d6 := decDigit_facts (n % 10) (Nat.mod_lt _ (by norm_num))
  constructor
  · simp only [pad6, List.cons_append, List.nil_append,
      List.takeWhile_cons_of_pos d1.1, List.takeWhile_cons_of_pos d2.1,
      List.takeWhile_cons_of_pos d3.1, List.takeWhile_cons_of_pos d4.1,
      List.takeWhile_cons_of_pos d5.1, List.takeWhile_cons_of_pos d6.1, h1]
  · simp only [pad6, List.cons_append, List.nil_append,
      List.dropWhile_cons_of_pos d1.1, List.dropWhile_cons_of_pos d2.1,
      List.dropWhile_cons_of_pos d3.1, List.dropWhile_cons_of_pos d4.1,
      List.dropWhile_cons_of_pos d5.1, List.dropWhile_cons_of_pos d6.1, h2]

theorem parseOffset_offsetChars (o? : Option Int) (h : offsetOk o? = true) :
    parseOffset (offsetChars o?) = some o? := by
  cases o? with
  | none => rfl
  | some o =>
      have hb : o.natAbs ≤ 1439 := by
        simpa [offsetOk, decide_eq_true_eq] using h
      have hh : o.natAbs / 60 ≤ 99 := by omega
      have hm : o.natAbs % 60 ≤ 99 := by omega
      by_cases hneg : o < 0
      · simp only [offsetChars, if_pos hneg, pad2, List.cons_append, List.nil_append]
        show (parseOffsetTail (-1)
            [decDigit (o.natAbs / 60 / 10 % 10), decDigit (o.natAbs / 60 % 10), ':',
              decDigit (o.natAbs % 60 / 10 % 10), decDigit (o.natAbs % 60 % 10)]).map some
            = some (some o)
        simp only [parseOffsetTail, read2_pad2 _ hh, read2_pad2 _ hm, Option.bind_eq_bind,
          Option.some_bind]
        rw [if_pos (by omega)]
        simp only [Option.map_some', Option.some.injEq]
        omega
      · simp only [offsetChars, if_neg hneg, pad2, List.cons_append, List.nil_append]
        show (parseOffsetTail 1
            [decDigit (o.natAbs / 60 / 10 % 10), decDigit (o.natAbs / 60 % 10), ':',
              decDigit (o.natAbs % 60 / 10 % 10), decDigit (o.natAbs % 60 % 10)]).map some
            = some (some o)
        simp only [parseOffsetTail, read2_pad2 _ hh, read2_pad2 _ hm, Option.bind_eq_bind,
          Option.some_bind]
        rw [if_pos (by omega)]
        simp only [Option.map_some', Option.some.injEq]
        omega

theorem parseFracOffset_nil : parseFracOffset [] = some (0, none) := rfl

theorem parseFracOffset_sign (c : Char) (rest : List Char) (hc : c ≠ '.') :
    parseFracOffset (c :: rest) = (parseOffset (c :: rest)).map (fun o => (0, o)) := by
  rw [parseFracOffset.eq_def]
  split
  · next heq => rw [List.cons.injEq] at heq; exact absurd heq.1 hc
  · rfl

theorem offsetChars_not_digit (o? : Option Int) :
    List.takeWhile Char.isDigit (offsetChars o?) = [] ∧
      List.dropWhile Char.isDigit (offsetChars o?) = offsetChars o? := by
  cases o? with
  | none => simp [offsetChars]
  | some o =>
      by_cases hneg : o < 0 <;>
        simp only [offsetChars, if_pos, if_neg, hneg, ite_true, ite_false] <;>
        exact ⟨List.takeWhile_cons_of_neg (by decide), List.dropWhile_cons_of_neg (by decide)⟩

theorem parseFracOffset_offsetChars (o? : Option Int) (h : offsetOk o? = true) :
    parseFracOffset (offsetChars o?) = some (0, o?) := by
  cases o? with
  | none => rfl
  | some o =>
      by_cases hneg : o < 0
      · have hsh : offsetChars (some o) =
            '-' :: (pad2 (o.natAbs / 60) ++ ':' :: pad2 (o.natAbs % 60)) := by
          simp [offsetChars, if_pos hneg]
        rw [hsh, parseFracOffset_sign _ _ (by decide), ← hsh, parseOffset_offsetChars _ h]
        rfl
      · have hsh : offsetChars (some o) =
            '+' :: (pad2 (o.natAbs / 60) ++ ':' :: pad2 (o.natAbs % 60)) := by
          simp [offsetChars, if_neg hneg]
        rw [hsh, parseFracOffset_sign _ _ (by decide), ← hsh, parseOffset_offsetChars _ h]
        rfl

theorem parseFracOffset_micro (n : Nat) (hn : n ≤ 999999)
    (o? : Option Int) (h : offsetOk o? = true) :
    parseFracOffset ('.' :: (pad6 n ++ offsetChars o?)) = some (n, o?) := by
  have hnd := offsetChars_not_digit o?
  obtain ⟨ht, hd⟩ := takeWhile_pad6_append n (offsetChars o?) hnd.1 hnd.2
  show (let ds := List.takeWhile Char.isDigit (pad6 n ++ offsetChars o?)
    if ds.length = 0 then none
    else
      let d6 := ds.take 6
      let micro := (d6.foldl (fun a c => 10 * a + digitVal c) 0) * 10 ^ (6 - d6.length)
      (parseOffset (List.dropWhile Char.isDigit (pad6 n ++ offsetChars o?))).map
        (fun o => (micro, o))) = some (n, o?)
  rw [ht, hd]
  have hlen : (pad6 n).length = 6 := by simp [pad6]
  rw [if_neg (by simp [hlen])]
  have htake : (pad6 n).take 6 = pad6 n := by
    conv_lhs => rw [← hlen]
    exact List.take_length _
  simp only [htake, hlen, pad6_foldl n hn, Nat.sub_self, pow_zero, Nat.mul_one,
    parseOffset_offsetChars _ h, Option.map_some']

theorem daysInMonth_le (y m : Nat) : daysInMonth y m ≤ 31 := by
  unfold daysInMonth
  split
  · split <;> omega
  · split <;> omega

theorem pyIsoparse_isoformat (d : PyDatetime) (h : d.wf) :
    pyIsoparse (isoformat d) = some d := by
  obtain ⟨y, mo, dd, hh, mi, ss, micro, off⟩ := d
  simp only [PyDatetime.wf] at h
  obtain ⟨hy1, hy2, hmo1, hmo2, hdd1, hdd2, hhh, hmi, hss, hmic, hoff⟩ := h
  unfold pyIsoparse isoformat
  rw [toList_mk]
  simp only [isoChars, List.append_assoc, List.cons_append]
  rw [take4_pad4 y (by omega)]
  simp only [Option.bind_eq_bind, Option.some_bind]
  rw [expectChar_self]
  simp only [Option.some_bind]
  rw [take2_pad2 mo (by omega)]
  simp only [Option.some_bind]
  rw [expectChar_self]
  simp only [Option.some_bind]
  rw [take2_pad2 dd (by have := daysInMonth_le y mo; omega)]
  simp only [Option.some_bind]
  rw [expectChar_self]
  simp only [Option.some_bind]
  rw [take2_pad2 hh (by omega)]
  simp only [Option.some_bind]
  rw [expectChar_self]
  simp only [Option.some_bind]
  rw [take2_pad2 mi (by omega)]
  simp only [Option.some_bind]
  rw [expectChar_self]
  simp only [Option.some_bind]
  rw [take2_pad2 ss (by omega)]
  simp only [Option.some_bind]
  by_cases hmc : micro = 0
  · subst hmc
    simp only [if_pos rfl, List.nil_append, ite_true]
    rw [parseFracOffset_offsetChars off hoff]
    simp only [Option.some_bind]
    rw [if_pos (by exact ⟨hy1, hmo1, hmo2, hdd1, hdd2, hhh, hmi, hss⟩)]
  · simp only [if_neg hmc, ite_false, List.cons_append]
    rw [parseFracOffset_micro micro (by omega) off hoff]
    simp only [Option.some_bind]
    rw [if_pos (by exact ⟨hy1, hmo1, hmo2, hdd1, hdd2, hhh, hmi, hss⟩)]

theorem foldl_digit_lt (l : List Char) :
    ∀ a : Nat, (∀ c ∈ l, c.isDigit = true) →
      List.foldl (fun x c => 10 * x + digitVal c) a l < (a + 1) * 10 ^ l.length := by
  induction l with
  | nil => intro a _; simp
  | cons c rest ih =>
      intro a hdig
      have hc : digitVal c ≤ 9 := digitVal_le c (hdig c (List.mem_cons_self _ _))
      have step := ih (10 * a + digitVal c) (fun x hx => hdig x (List.mem_cons_of_mem _ hx))
      calc List.foldl (fun x c => 10 * x + digitVal c) (10 * a + digitVal c) rest
          < (10 * a + digitVal c + 1) * 10 ^ rest.length := step
        _ ≤ ((a + 1) * 10) * 10 ^ rest.length := by
            apply Nat.mul_le_mul_right
            omega
        _ = (a + 1) * 10 ^ (rest.length + 1) := by ring
        _ = (a + 1) * 10 ^ (c :: rest).length := by simp

theorem read2_le (a b : Char) (n : Nat) (h : read2 a b = some n) : n ≤ 99 := by
  unfold read2 at h
  split at h
  · next hd =>
      simp only [Bool.and_eq_true] at hd
      have h1 := digitVal_le a hd.1
      have h2 := digitVal_le b hd.2
      simp only [Option.some.injEq] at h
      omega
  · simp at h

theorem read4_le (a b c d : Char) (n : Nat) (h : read4 a b c d = some n) : n ≤ 9999 := by
  unfold read4 at h
  split at h
  · next hd =>
      simp only [Bool.and_eq_true] at hd
      have h1 := digitVal_le a hd.1.1.1
      have h2 := digitVal_le b hd.1.1.2
      have h3 := digitVal_le c hd.1.2
      have h4 := digitVal_le d hd.2
      simp only [Option.some.injEq] at h
      omega
  · simp at h

theorem take4_le (cs cs' : List Char) (n : Nat) (h : take4 cs = some (n, cs')) : n ≤ 9999 := by
  unfold take4 at h
  split at h
  · next a b c d rest =>
      simp only [Option.map_eq_some'] at h
      obtain ⟨m, hm, hpair⟩ := h
      have hmn : m = n := congrArg Prod.fst hpair
      exact hmn ▸ read4_le a b c d m hm
  · simp at h

theorem parseOffsetTail_le (sign : Int) (hs : sign = 1 ∨ sign = -1) (cs : List Char)
    (o : Int) (h : parseOffsetTail sign cs = some o) : o.natAbs ≤ 1439 := by
  rw [parseOffsetTail.eq_def] at h
  split at h
  · simp only [Option.bind_eq_bind, Option.bind_eq_some] at h
    obtain ⟨hv, hh, m, hm, hif⟩ := h
    split at hif
    · next hrange =>
        simp only [Option.some.injEq] at hif
        rcases hs with rfl | rfl <;> omega
    · simp at hif
  · simp only [Option.bind_eq_bind, Option.bind_eq_some] at h
    obtain ⟨hv, hh, m, hm, hif⟩ := h
    split at hif
    · next hrange =>
        simp only [Option.some.injEq] at hif
        rcases hs with rfl | rfl <;> omega
    · simp at hif
  · simp only [Option.bind_eq_bind, Option.bind_eq_some] at h
    obtain ⟨hv, hh, hif⟩ := h
    split at hif
    · next hrange =>
        simp only [Option.some.injEq] at hif
        rcases hs with rfl | rfl <;> omega
    · simp at hif
  · simp at h

theorem parseOffset_ok (cs : List Char) (o? : Option Int) (h : parseOffset cs = some o?) :
    offsetOk o? = true := by
  rw [parseOffset.eq_def] at h
  split at h
  · simp only [Option.some.injEq] at h; subst h; rfl
  · simp only [Option.some.injEq] at h; subst h; rfl
  · simp only [Option.some.injEq] at h; subst h; rfl
  · next rest =>
      simp only [Option.map_eq_some'] at h
      obtain ⟨o, ho, rfl⟩ := h
      simpa [offsetOk] using parseOffsetTail_le 1 (Or.inl rfl) rest o ho
  · next rest =>
      simp only [Option.map_eq_some'] at h
      obtain ⟨o, ho, rfl⟩ := h
      simpa [offsetOk] using parseOffsetTail_le (-1) (Or.inr rfl) rest o ho
  · simp at h

theorem parseFracOffset_bounds (cs : List Char) (micro : Nat) (o? : Option Int)
    (h : parseFracOffset cs = some (micro, o?)) :
    micro ≤ 999999 ∧ offsetOk o? = true := by
  cases cs with
  | nil =>
      rw [parseFracOffset_nil] at h
      simp only [Option.some.injEq, Prod.mk.injEq] at h
      obtain ⟨rfl, rfl⟩ := h
      exact ⟨by omega, rfl⟩
  | cons c rest =>
      by_cases hc : c = '.'
      · subst hc
        have hd : parseFracOffset ('.' :: rest) =
            (let ds := List.takeWhile Char.isDigit rest
            if ds.length = 0 then none
            else
              let d6 := ds.take 6
              let m := (d6.foldl (fun a c => 10 * a + digitVal c) 0) * 10 ^ (6 - d6.length)
              (parseOffset (List.dropWhile Char.isDigit rest)).map (fun o => (m, o))) := rfl
        rw [hd] at h
        simp only at h
        split at h
        · simp at h
        · simp only [Option.map_eq_some'] at h
          obtain ⟨o, ho, hpair⟩ := h
          simp only [Prod.mk.injEq] at hpair
          obtain ⟨hmicro, rfl⟩ := hpair
          refine ⟨?_, parseOffset_ok _ _ ho⟩
          subst hmicro
          have hdig : ∀ x ∈ (List.takeWhile Char.isDigit rest).take 6, x.isDigit = true :=
            fun x hx => List.mem_takeWhile_imp (List.take_subset _ _ hx)
          have hlen : ((List.takeWhile Char.isDigit rest).take 6).length ≤ 6 := by
            simp [List.length_take]
          have hfold := foldl_digit_lt _ 0 hdig
          simp only [Nat.zero_add, Nat.one_mul] at hfold
          have hpow : (10 : Nat) ^ ((List.takeWhile Char.isDigit rest).take 6).length *
              10 ^ (6 - ((List.takeWhile Char.isDigit rest).take 6).length) = 10 ^ 6 := by
            rw [← pow_add]
            congr 1
            omega
          have hlt := Nat.mul_lt_mul_of_lt_of_le hfold
            (Nat.le_refl (10 ^ (6 - ((List.takeWhile Char.isDigit rest).take 6).length)))
            (Nat.pos_pow_of_pos _ (by norm_num))
          rw [hpow] at hlt
          have h6 : (10 : Nat) ^ 6 = 1000000 := by norm_num
          rw [h6] at hlt
          simp only [List.length_take] at hlt ⊢
          omega
      · rw [parseFracOffset_sign c rest hc] at h
        simp only [Option.map_eq_some'] at h
        obtain ⟨o, ho, hpair⟩ := h
        simp only [Prod.mk.injEq] at hpair
        obtain ⟨rfl, rfl⟩ := hpair
        exact ⟨by omega, parseOffset_ok _ _ ho⟩

theorem pyIsoparse_wf (s : String) (d : PyDatetime) (h : pyIsoparse s = some d) : d.wf := by
  unfold pyIsoparse at h
  simp only [Option.bind_eq_bind, Option.bind_eq_some] at h
  obtain ⟨⟨y, cs1⟩, hy, h⟩ := h
  obtain ⟨cs2, hc2, h⟩ := h
  obtain ⟨⟨mo, cs3⟩, hmo, h⟩ := h
  obtain ⟨cs4, hc4, h⟩ := h
  obtain ⟨⟨dd, cs5⟩, hdd, h⟩ := h
  obtain ⟨cs6, hc6, h⟩ := h
  obtain ⟨⟨hh, cs7⟩, hhh, h⟩ := h
  obtain ⟨cs8, hc8, h⟩ := h
  obtain ⟨⟨mi, cs9⟩, hmi, h⟩ := h
  obtain ⟨cs10, hc10, h⟩ := h
  obtain ⟨⟨ss, cs11⟩, hss, h⟩ := h
  obtain ⟨⟨micro, off⟩, hfrac, h⟩ := h
  split at h
  · next hcond =>
      simp only [Option.some.injEq] at h
      subst h
      obtain ⟨g1, g2, g3, g4, g5, g6, g7, g8⟩ := hcond
      have hy4 := take4_le _ _ _ hy
      have hfb := parseFracOffset_bounds _ _ _ hfrac
      exact ⟨g1, hy4, g2, g3, g4, g5, g6, g7, g8, hfb.1, hfb.2⟩
  · simp at h

theorem validate_isoformat (d : PyDatetime) (h : d.wf) :
    validate_utc_iso_string (isoformat d) = decide (d.offsetMinutes = some 0) := by
  unfold validate_utc_iso_string
  rw [pyIsoparse_isoformat d h]

/-- C1: for every cursor-paginated request, the list returned by
`_make_paged_get_request` equals the concatenation, in page order, of the
`data` lists of every page in the upstream cursor chain; and
`get_posts_published_by_page` and `get_all_comments_on_post` return exactly
that paged request's result for their endpoint and params. -/
theorem claim_C1 (net : Network) (access_token : String) (fuel : Nat)
    (endpoint : String) (params : List (String × String)) (d0 : List Json)
    (chain : List (String × List Json))
    (hfirst : net.page_response endpoint (dictSet params "access_token" access_token)
      = ⟨some d0, some (chain.head?.map Prod.fst)⟩)
    (hchain : FetchChain net.url_response chain)
    (hfuel : chain.length ≤ fuel) :
    make_paged_get_request net access_token fuel endpoint params
        = .ok (d0 ++ (chain.map Prod.snd).flatten)
      ∧ (∀ loc page_id fields ca cb,
          get_posts_published_by_page net access_token fuel loc page_id fields ca cb
            = make_paged_get_request net access_token fuel
                ("/" ++ page_id ++ "/published_posts") (posts_params fields ca cb loc))
      ∧ (∀ post_id fields,
          get_all_comments_on_post net access_token fuel post_id fields
            = make_paged_get_request net access_token fuel
                ("/" ++ post_id ++ "/comments") (comments_params fields)) := by
  refine ⟨?_, fun _ _ _ _ _ => rfl, fun _ _ => rfl⟩
  show (match (net.page_response endpoint
        (dictSet params "access_token" access_token)).data? with
    | none => PyOutcome.exitNonZero
    | some d =>
      match (net.page_response endpoint
          (dictSet params "access_token" access_token)).paging?.bind id with
      | none => PyOutcome.ok d
      | some u => pagedLoop net.url_response fuel u d) = _
  rw [hfirst]
  cases chain with
  | nil => simp
  | cons hd tl =>
      obtain ⟨u, d⟩ := hd
      simp only [List.head?_cons, Option.map_some']
      show pagedLoop net.url_response fuel u d0 = _
      rw [pagedLoop_chain net.url_response tl u d fuel d0 hchain
        (by simp at hfuel; omega)]
      simp

/-- Witness for C1: on the three mock pages the client returns the
concatenation of all three pages' records in order. -/
theorem claim_C1_witness :
    (w1net.page_response "/ep" (dictSet [] "access_token" "tok")
        = ⟨some w1d0, some (w1chain.head?.map Prod.fst)⟩)
      ∧ FetchChain w1net.url_response w1chain
      ∧ w1chain.length ≤ 5
      ∧ make_paged_get_request w1net "tok" 5 "/ep" []
          = .ok [Json.str "a1", Json.str "a2", Json.str "b1", Json.str "c1"] := by
  refine ⟨rfl, ⟨rfl, rfl, trivial⟩, by decide, ?_⟩
  rw [(claim_C1 w1net "tok" 5 "/ep" [] w1d0 w1chain rfl ⟨rfl, rfl, trivial⟩ (by decide)).1]
  rfl

/-- C10: when a page after the first contains `data` but no `paging` field,
`_make_paged_get_request` raises a `KeyError` (from its plain `["paging"]`
lookup) instead of returning the accumulated records, whereas the same
absence on the first page (read with `.get("paging", {})`) terminates
pagination normally. -/
theorem claim_C10 :
    make_paged_get_request c10net "tok" 5 "/ep" [] = .keyError "paging"
      ∧ make_paged_get_request c10netFirst "tok" 5 "/ep" [] = .ok [Json.str "a"] :=
  ⟨rfl, rfl⟩

/-- Counterexample to C2 as stated: a metrics accessor receiving a body with
no `data` field raises a `KeyError` that propagates to the caller — it does
not log-and-exit non-zero. -/
theorem claim_C2_counterexample :
    get_raw_metrics_for_post ⟨none⟩ = .keyError "data"
      ∧ get_raw_metrics_for_post ⟨none⟩ ≠ .exitNonZero
      ∧ get_metrics_for_post ⟨none⟩ = .keyError "data"
      ∧ get_metrics_for_post ⟨none⟩ ≠ .exitNonZero := by
  refine ⟨rfl, ?_, rfl, ?_⟩ <;> intro h <;> exact PyOutcome.noConfusion h

/-- C2 (amended): a response body lacking `data` makes the paged request
path log and exit non-zero — on the first page and on every subsequent page —
while the metrics accessors instead raise a `KeyError` that propagates to
the caller. -/
theorem claim_C2 (net : Network) (access_token : String) (fuel : Nat) (endpoint : String)
    (params : List (String × String)) (fetch : String → FbResponse) (url : String)
    (acc : List Json) (resp : InsightsResponse)
    (h1 : (net.page_response endpoint (dictSet params "access_token" access_token)).data?
      = none)
    (h2 : (fetch url).data? = none)
    (h3 : resp.data? = none) :
    make_paged_get_request net access_token fuel endpoint params = .exitNonZero
      ∧ pagedLoop fetch (fuel + 1) url acc = .exitNonZero
      ∧ get_raw_metrics_for_post resp = .keyError "data"
      ∧ get_metrics_for_post resp = .keyError "data" := by
  refine ⟨?_, ?_, ?_, ?_⟩
  · show (match (net.page_response endpoint
        (dictSet params "access_token" access_token)).data? with
      | none => PyOutcome.exitNonZero
      | some d =>
        match (net.page_response endpoint
            (dictSet params "access_token" access_token)).paging?.bind id with
        | none => PyOutcome.ok d
        | some u => pagedLoop net.url_response fuel u d) = _
    rw [h1]
  · rw [pagedLoop]
    show (match (fetch url).data? with
      | none => PyOutcome.exitNonZero
      | some d =>
        match (fetch url).paging? with
        | none => PyOutcome.keyError "paging"
        | some next? =>
          match next? with
          | none => PyOutcome.ok (acc ++ d)
          | some u => pagedLoop fetch fuel u (acc ++ d)) = _
    rw [h2]
  · unfold get_raw_metrics_for_post
    rw [h3]
  · unfold get_metrics_for_post get_raw_metrics_for_post
    rw [h3]

/-- Witness for C2 (amended) at a concrete no-`data` network and response. -/
theorem claim_C2_witness :
    (c2net.page_response "/ep" (dictSet [] "access_token" "t")).data? = none
      ∧ (c2net.url_response "u").data? = none
      ∧ (make_paged_get_request c2net "t" 2 "/ep" [] = .exitNonZero
        ∧ pagedLoop c2net.url_response 3 "u" [] = .exitNonZero
        ∧ get_raw_metrics_for_post ⟨none⟩ = .keyError "data"
        ∧ get_metrics_for_post ⟨none⟩ = .keyError "data") :=
  ⟨rfl, rfl,
    claim_C2 c2net "t" 2 "/ep" [] c2net.url_response "u" [] ⟨none⟩ rfl rfl rfl⟩

/-- C6: in `get_posts_published_by_page`, whenever `created_after`
(resp. `created_before`) is not None, the outgoing request parameters (the
params dict sent by the paged request, access token included) contain
`since` (resp. `until`) set to that datetime converted to UTC and formatted
as an ISO 8601 string with a `Z` suffix in place of the `+00:00` offset
(`facebook_time_spec`); whenever the argument is None, the corresponding
parameter is absent. -/
theorem claim_C6 (access_token : String) (fields : List String) (loc : Int)
    (d : PyDatetime) (ca cb : Option PyDatetime) :
    dictGet (dictSet (posts_params fields (some d) cb loc) "access_token" access_token)
        "since" = some (facebook_time_spec loc d)
      ∧ dictGet (dictSet (posts_params fields none cb loc) "access_token" access_token)
        "since" = none
      ∧ dictGet (dictSet (posts_params fields ca (some d) loc) "access_token" access_token)
        "until" = some (facebook_time_spec loc d)
      ∧ dictGet (dictSet (posts_params fields ca none loc) "access_token" access_token)
        "until" = none := by
  have hspec := date_to_facebook_time_eq_spec loc d
  refine ⟨?_, ?_, ?_, ?_⟩
  · rw [dictGet_dictSet_ne _ _ _ _ (by decide)]
    cases cb with
    | none =>
        simp only [posts_params]
        rw [dictGet_dictSet_same, hspec]
    | some d' =>
        simp only [posts_params]
        rw [dictGet_dictSet_ne _ _ _ _ (by decide), dictGet_dictSet_same, hspec]
  · rw [dictGet_dictSet_ne _ _ _ _ (by decide)]
    cases cb with
    | none => rfl
    | some d' =>
        simp only [posts_params]
        rw [dictGet_dictSet_ne _ _ _ _ (by decide)]
        rfl
  · rw [dictGet_dictSet_ne _ _ _ _ (by decide)]
    cases ca with
    | none =>
        simp only [posts_params]
        rw [dictGet_dictSet_same, hspec]
    | some d' =>
        simp only [posts_params]
        rw [dictGet_dictSet_same, hspec]
  · rw [dictGet_dictSet_ne _ _ _ _ (by decide)]
    cases ca with
    | none => rfl
    | some d' =>
        simp only [posts_params]
        rw [dictGet_dictSet_ne _ _ _ _ (by decide)]
        rfl

theorem clean_loop_photo_all (l : List Attachment) (h : ∀ a ∈ l, a.type = "photo") :
    clean_post_type_loop (some "photo") l = .ok (some "photo") := by
  induction l with
  | nil => rfl
  | cons a rest ih =>
      have ha : a.type = "photo" := h a (List.mem_cons_self _ _)
      simp only [clean_post_type_loop, ha, true_or, or_true, ite_true]
      exact ih (fun x hx => h x (List.mem_cons_of_mem _ hx))

theorem clean_loop_video_all (l : List Attachment)
    (h : ∀ a ∈ l, a.type = "video_inline" ∨ a.type = "video_direct_response") :
    clean_post_type_loop (some "video") l = .ok (some "video") := by
  induction l with
  | nil => rfl
  | cons a rest ih =>
      have ih2 := ih (fun x hx => h x (List.mem_cons_of_mem _ hx))
      rcases h a (List.mem_cons_self _ _) with ha | ha <;>
        · simp only [clean_post_type_loop, ha, true_or, or_true, ite_true]
          exact ih2

/-- C3: a post whose attachment list contains only photo attachments cleans
to "photo"; one containing only video-type attachments ("video_inline" or
"video_direct_response") cleans to "video"; a post with no attachments
cleans to no type (None). -/
theorem claim_C3 (atts : List Attachment) :
    (atts ≠ [] → (∀ a ∈ atts, a.type = "photo") →
        clean_post_type ⟨atts⟩ = .ok (some "photo"))
      ∧ (atts ≠ [] →
          (∀ a ∈ atts, a.type = "video_inline" ∨ a.type = "video_direct_response") →
          clean_post_type ⟨atts⟩ = .ok (some "video"))
      ∧ clean_post_type ⟨[]⟩ = .ok none := by
  refine ⟨?_, ?_, rfl⟩
  · intro hne h
    cases atts with
    | nil => exact absurd rfl hne
    | cons a rest =>
        have ha : a.type = "photo" := h a (List.mem_cons_self _ _)
        show clean_post_type_loop none (a :: rest) = _
        simp only [clean_post_type_loop, ha, true_or, or_true, ite_true]
        exact clean_loop_photo_all rest (fun x hx => h x (List.mem_cons_of_mem _ hx))
  · intro hne h
    cases atts with
    | nil => exact absurd rfl hne
    | cons a rest =>
        have hrest := clean_loop_video_all rest (fun x hx => h x (List.mem_cons_of_mem _ hx))
        rcases h a (List.mem_cons_self _ _) with ha | ha <;>
          · show clean_post_type_loop none (a :: rest) = _
            simp only [clean_post_type_loop, ha, true_or, or_true, ite_true]
            exact hrest

/-- Witness for C3 at concrete posts. -/
theorem claim_C3_witness :
    clean_post_type ⟨[⟨"photo"⟩, ⟨"photo"⟩]⟩ = .ok (some "photo")
      ∧ clean_post_type ⟨[⟨"video_inline"⟩, ⟨"video_direct_response"⟩]⟩ = .ok (some "video")
      ∧ clean_post_type ⟨[]⟩ = .ok none :=
  ⟨(claim_C3 [⟨"photo"⟩, ⟨"photo"⟩]).1 (by decide) (by decide),
    (claim_C3 [⟨"video_inline"⟩, ⟨"video_direct_response"⟩]).2.1 (by decide) (by decide),
    (claim_C3 []).2.2⟩

theorem clean_loop_total (l : List Attachment) :
    ∀ pt, (∃ r, clean_post_type_loop pt l = .ok r) ∨
      clean_post_type_loop pt l = .assertionError := by
  induction l with
  | nil => intro pt; exact Or.inl ⟨pt, rfl⟩
  | cons a rest ih =>
      intro pt
      simp only [clean_post_type_loop]
      by_cases h1 : a.type = "video_inline" ∨ a.type = "video_direct_response" ∨
        a.type = "photo"
      · rw [if_pos h1]
        by_cases h2 : a.type = "video_inline" ∨ a.type = "video_direct_response"
        · rw [if_pos h2]
          by_cases h3 : pt = some "video" ∨ pt = none
          · rw [if_pos h3]; exact ih _
          · rw [if_neg h3]; exact Or.inr rfl
        · rw [if_neg h2]
          by_cases h4 : pt = some "photo" ∨ pt = none
          · rw [if_pos h4]; exact ih _
          · rw [if_neg h4]; exact Or.inr rfl
      · rw [if_neg h1]; exact Or.inr rfl

theorem clean_loop_fixed (l : List Attachment) :
    ∀ (k : String) (r : Option String),
      clean_post_type_loop (some k) l = .ok r → r = some k := by
  induction l with
  | nil =>
      intro k r h
      simpa [clean_post_type_loop] using h.symm
  | cons a rest ih =>
      intro k r h
      simp only [clean_post_type_loop] at h
      split at h
      · split at h
        · split at h
          · next h3 =>
              have hk : k = "video" := by
                rcases h3 with h3 | h3
                · exact Option.some.inj h3
                · exact absurd h3 (by simp)
              subst hk
              exact ih _ _ h
          · exact PyOutcome.noConfusion h
        · split at h
          · next h4 =>
              have hk : k = "photo" := by
                rcases h4 with h4 | h4
                · exact Option.some.inj h4
                · exact absurd h4 (by simp)
              subst hk
              exact ih _ _ h
          · exact PyOutcome.noConfusion h
      · exact PyOutcome.noConfusion h

theorem clean_loop_ok_spec (l : List Attachment) :
    ∀ (pt : Option String) (r : Option String), clean_post_type_loop pt l = .ok r →
      (∀ a ∈ l, a.type = "video_inline" ∨ a.type = "video_direct_response" ∨
        a.type = "photo")
        ∧ (∀ a ∈ l, a.type = "photo" → r = some "photo")
        ∧ (∀ a ∈ l, a.type = "video_inline" ∨ a.type = "video_direct_response" →
            r = some "video") := by
  induction l with
  | nil => intro pt r _; exact ⟨by simp, by simp, by simp⟩
  | cons a rest ih =>
      intro pt r h
      simp only [clean_post_type_loop] at h
      split at h
      · next h1 =>
          split at h
          · next h2 =>
              split at h
              · have spec := ih _ _ h
                have hr : r = some "video" := clean_loop_fixed rest _ _ h
                refine ⟨?_, ?_, ?_⟩
                · intro x hx
                  rcases List.mem_cons.mp hx with rfl | hx
                  · exact h1
                  · exact spec.1 x hx
                · intro x hx hp
                  rcases List.mem_cons.mp hx with rfl | hx
                  · rcases h2 with h2 | h2 <;> rw [hp] at h2 <;> exact absurd h2 (by decide)
                  · exact spec.2.1 x hx hp
                · intro x hx _
                  exact hr
              · exact PyOutcome.noConfusion h
          · next h2 =>
              have hphoto : a.type = "photo" := by
                rcases h1 with h1 | h1 | h1
                · exact absurd (Or.inl h1) h2
                · exact absurd (Or.inr h1) h2
                · exact h1
              split at h
              · have spec := ih _ _ h
                have hr : r = some "photo" := clean_loop_fixed rest _ _ h
                refine ⟨?_, ?_, ?_⟩
                · intro x hx
                  rcases List.mem_cons.mp hx with rfl | hx
                  · exact h1
                  · exact spec.1 x hx
                · intro x hx _
                  exact hr
                · intro x hx hv
                  rcases List.mem_cons.mp hx with rfl | hx
                  · exact absurd hv h2
                  · exact spec.2.2 x hx hv
              · exact PyOutcome.noConfusion h
      · exact PyOutcome.noConfusion h

/-- C7: a post whose attachment list mixes photo-kind and video-kind
attachments, or contains an attachment of unrecognized type, makes
`clean_post_type` raise an assertion error rather than return a type. -/
theorem claim_C7 (atts : List Attachment)
    (h : ((∃ a ∈ atts, a.type = "photo")
        ∧ (∃ b ∈ atts, b.type = "video_inline" ∨ b.type = "video_direct_response"))
      ∨ (∃ a ∈ atts, ¬(a.type = "video_inline" ∨ a.type = "video_direct_response" ∨
          a.type = "photo"))) :
    clean_post_type ⟨atts⟩ = .assertionError := by
  rcases clean_loop_total atts none with ⟨r, hr⟩ | herr
  · exfalso
    have spec := clean_loop_ok_spec atts none r hr
    rcases h with ⟨⟨a, ha, hpa⟩, ⟨b, hb, hvb⟩⟩ | ⟨a, ha, hna⟩
    · have h1 := spec.2.1 a ha hpa
      have h2 := spec.2.2 b hb hvb
      rw [h1] at h2
      exact absurd (Option.some.inj h2) (by decide)
    · exact hna (spec.1 a ha)
  · exact herr

/-- Witness for C7: a mixed post and an unrecognized-type post both raise. -/
theorem claim_C7_witness :
    clean_post_type ⟨[⟨"photo"⟩, ⟨"video_inline"⟩]⟩ = .assertionError
      ∧ clean_post_type ⟨[⟨"album"⟩]⟩ = .assertionError :=
  ⟨claim_C7 [⟨"photo"⟩, ⟨"video_inline"⟩] (Or.inl (by decide)),
    claim_C7 [⟨"album"⟩] (Or.inr (by decide))⟩

theorem metrics_loop_ok (l : List Metric) :
    ∀ acc, (∀ m ∈ l, m.values.length = 1) →
      metrics_loop acc l
        = .ok (l.foldl (fun a m => dictSet a m.name (metric_value1 m)) acc) := by
  induction l with
  | nil => intro acc _; rfl
  | cons m rest ih =>
      intro acc h
      obtain ⟨v, hv⟩ := List.length_eq_one.mp (h m (List.mem_cons_self _ _))
      simp only [metrics_loop, hv, List.foldl_cons, metric_value1]
      exact ih _ (fun x hx => h x (List.mem_cons_of_mem _ hx))

theorem metrics_loop_err (l : List Metric) :
    ∀ acc, (∃ m ∈ l, m.values.length ≠ 1) → metrics_loop acc l = .assertionError := by
  induction l with
  | nil => intro acc h; simp at h
  | cons m rest ih =>
      intro acc h
      match hv : m.values with
      | [] => simp [metrics_loop, hv]
      | [v] =>
          obtain ⟨x, hx, hlen⟩ := h
          rcases List.mem_cons.mp hx with rfl | hx
          · rw [hv] at hlen; simp at hlen
          · simp only [metrics_loop, hv]
            exact ih _ ⟨x, hx, hlen⟩
      | v :: w :: tl => simp [metrics_loop, hv]

theorem dictGet_metrics_foldl_notin (l : List Metric) :
    ∀ (acc : List (String × Json)) (key : String), (∀ m ∈ l, m.name ≠ key) →
      dictGet (l.foldl (fun a m => dictSet a m.name (metric_value1 m)) acc) key
        = dictGet acc key := by
  induction l with
  | nil => intro acc key _; rfl
  | cons m rest ih =>
      intro acc key h
      simp only [List.foldl_cons]
      rw [ih _ _ (fun x hx => h x (List.mem_cons_of_mem _ hx))]
      exact dictGet_dictSet_ne _ _ _ _ (h m (List.mem_cons_self _ _))

theorem dictGet_metrics_foldl_mem (l : List Metric) :
    ∀ (acc : List (String × Json)), (l.map Metric.name).Nodup →
      ∀ m ∈ l, dictGet (l.foldl (fun a m => dictSet a m.name (metric_value1 m)) acc)
        m.name = some (metric_value1 m) := by
  induction l with
  | nil => intro acc _ m hm; simp at hm
  | cons x rest ih =>
      intro acc hnd m hm
      simp only [List.map_cons, List.nodup_cons] at hnd
      simp only [List.foldl_cons]
      rcases List.mem_cons.mp hm with rfl | hm
      · rw [dictGet_metrics_foldl_notin rest _ _
          (fun y hy hcontra =>
            hnd.1 (by rw [← hcontra]; exact List.mem_map_of_mem Metric.name hy))]
        exact dictGet_dictSet_same _ _ _
      · exact ih _ hnd.2 m hm

/-- C4: `get_metrics_for_post` raises an assertion error iff some returned
metric has a number of values different from one, and otherwise returns the
mapping from each metric's name to its single value; on the same response a
metric with two values raises in `get_metrics_for_post` while
`get_raw_metrics_for_post` succeeds, returning the raw list-of-objects
shape. -/
theorem claim_C4 (raw : List Metric) :
    (get_metrics_for_post ⟨some raw⟩ = .assertionError ↔ ∃ m ∈ raw, m.values.length ≠ 1)
      ∧ ((∀ m ∈ raw, m.values.length = 1) →
          get_metrics_for_post ⟨some raw⟩ = .ok (cleaned_metrics raw)
            ∧ ((raw.map Metric.name).Nodup → ∀ m ∈ raw,
                dictGet (cleaned_metrics raw) m.name = some (metric_value1 m)))
      ∧ ((∃ m ∈ raw, m.values.length = 2) →
          get_metrics_for_post ⟨some raw⟩ = .assertionError)
      ∧ get_raw_metrics_for_post ⟨some raw⟩ = .ok raw := by
  have hconv : get_metrics_for_post ⟨some raw⟩ = metrics_loop [] raw := rfl
  refine ⟨⟨?_, ?_⟩, ?_, ?_, rfl⟩
  · intro h
    by_contra hno
    push_neg at hno
    rw [hconv, metrics_loop_ok raw [] hno] at h
    exact PyOutcome.noConfusion h
  · intro h
    rw [hconv]
    exact metrics_loop_err raw [] h
  · intro h
    refine ⟨?_, fun hnd m hm => dictGet_metrics_foldl_mem raw [] hnd m hm⟩
    rw [hconv]
    exact metrics_loop_ok raw [] h
  · intro ⟨m, hm, hlen⟩
    rw [hconv]
    exact metrics_loop_err raw [] ⟨m, hm, by omega⟩

/-- Witness for C4: a response with a one-value metric flattens, and one
with a two-value metric raises in the simplified accessor while the raw
accessor succeeds. -/
theorem claim_C4_witness :
    (get_metrics_for_post ⟨some [⟨"likes", [⟨Json.num 3⟩]⟩]⟩
        = .ok (cleaned_metrics [⟨"likes", [⟨Json.num 3⟩]⟩])
      ∧ dictGet (cleaned_metrics [⟨"likes", [⟨Json.num 3⟩]⟩]) "likes" = some (Json.num 3))
      ∧ get_metrics_for_post ⟨some [⟨"likes", [⟨Json.num 3⟩, ⟨Json.num 4⟩]⟩]⟩
        = .assertionError
      ∧ get_raw_metrics_for_post ⟨some [⟨"likes", [⟨Json.num 3⟩, ⟨Json.num 4⟩]⟩]⟩
        = .ok [⟨"likes", [⟨Json.num 3⟩, ⟨Json.num 4⟩]⟩] := by
  refine ⟨⟨?_, ?_⟩, ?_, ?_⟩
  · exact ((claim_C4 [⟨"likes", [⟨Json.num 3⟩]⟩]).2.1 (by simp)).1
  · exact ((claim_C4 [⟨"likes", [⟨Json.num 3⟩]⟩]).2.1 (by simp)).2 (by simp)
      ⟨"likes", [⟨Json.num 3⟩]⟩ (by simp)
  · exact (claim_C4 [⟨"likes", [⟨Json.num 3⟩, ⟨Json.num 4⟩]⟩]).2.2.1
      ⟨⟨"likes", [⟨Json.num 3⟩, ⟨Json.num 4⟩]⟩, by simp, by simp⟩
  · exact (claim_C4 [⟨"likes", [⟨Json.num 3⟩, ⟨Json.num 4⟩]⟩]).2.2.2

theorem reserialize_time_ok (c : Comment) (ct : String) (dt : PyDatetime)
    (hct : dictGet c.fields "created_time" = some (Json.str ct))
    (hdt : pyIsoparse ct = some dt) (hoff : dt.offsetMinutes = some 0) :
    reserialize_time c = .ok ⟨dictSet c.fields "created_time" (Json.str (isoformat dt))⟩
      ∧ update_time c = ⟨dictSet c.fields "created_time" (Json.str (isoformat dt))⟩ := by
  have hwf := pyIsoparse_wf ct dt hdt
  have hval : validate_utc_iso_string (isoformat dt) = true := by
    rw [validate_isoformat dt hwf, hoff]
    simp
  constructor
  · simp only [reserialize_time, hct, hdt, hval, ite_true]
  · simp only [update_time, hct, hdt]

theorem data_app (a b : String) : (a ++ b).data = a.data ++ b.data := rfl

theorem ns_ne_avf (ds k : String) : ds ++ "." ++ k ≠ "avf_facebook_id" := by
  intro h
  have hd : '.' ∈ (ds ++ "." ++ k).data := by
    rw [data_app, data_app]
    have hdot : ("." : String).data = ['.'] := rfl
    rw [hdot]
    simp
  rw [h] at hd
  exact absurd hd (by decide)

theorem ns_inj (ds k1 k2 : String) (h : ds ++ "." ++ k1 = ds ++ "." ++ k2) : k1 = k2 := by
  have hd := congrArg String.data h
  rw [data_app, data_app, data_app, data_app] at hd
  exact String.ext (List.append_cancel_left hd)

theorem dictGet_ns_foldl_notin (ds : String) (l : List (String × Json)) :
    ∀ (acc : List (String × Json)) (key : String), (∀ kv ∈ l, ds ++ "." ++ kv.1 ≠ key) →
      dictGet (l.foldl (fun a kv => dictSet a (ds ++ "." ++ kv.1) kv.2) acc) key
        = dictGet acc key := by
  induction l with
  | nil => intro acc key _; rfl
  | cons kv rest ih =>
      intro acc key h
      simp only [List.foldl_cons]
      rw [ih _ _ (fun x hx => h x (List.mem_cons_of_mem _ hx))]
      exact dictGet_dictSet_ne _ _ _ _ (h kv (List.mem_cons_self _ _))

theorem dictGet_ns_foldl_mem (ds : String) (l : List (String × Json)) :
    ∀ (acc : List (String × Json)), (l.map Prod.fst).Nodup →
      ∀ k v, (k, v) ∈ l →
        dictGet (l.foldl (fun a kv => dictSet a (ds ++ "." ++ kv.1) kv.2) acc)
          (ds ++ "." ++ k) = some v := by
  induction l with
  | nil => intro acc _ k v hm; simp at hm
  | cons kv rest ih =>
      intro acc hnd k v hm
      simp only [List.map_cons, List.nodup_cons] at hnd
      simp only [List.foldl_cons]
      rcases List.mem_cons.mp hm with heq | hm
      · obtain ⟨rfl, rfl⟩ : kv.1 = k ∧ kv.2 = v := by
          rw [← heq]; exact ⟨rfl, rfl⟩
        rw [dictGet_ns_foldl_notin ds rest _ _ ?_]
        · exact dictGet_dictSet_same _ _ _
        · intro y hy hcontra
          have hk : y.1 = kv.1 := ns_inj ds y.1 kv.1 hcontra
          exact hnd.1 (by rw [← hk]; exact List.mem_map_of_mem Prod.fst hy)
      · exact ih _ hnd.2 k v hm

theorem mk_comment_dict_avf (ds uuid : String) (c : Comment) :
    dictGet (mk_comment_dict ds uuid c) "avf_facebook_id" = some (Json.str uuid) := by
  unfold mk_comment_dict
  rw [dictGet_ns_foldl_notin ds c.fields _ _ (fun kv _ => ns_ne_avf ds kv.1)]
  rfl

theorem mk_comment_dict_field (ds uuid : String) (c : Comment)
    (hnd : (c.fields.map Prod.fst).Nodup) (k : String) (v : Json)
    (hm : (k, v) ∈ c.fields) :
    dictGet (mk_comment_dict ds uuid c) (ds ++ "." ++ k) = some v := by
  unfold mk_comment_dict
  exact dictGet_ns_foldl_mem ds c.fields _ hnd k v hm

theorem update_time_fields (c : Comment) (ct : String) (dt : PyDatetime)
    (hct : dictGet c.fields "created_time" = some (Json.str ct))
    (hdt : pyIsoparse ct = some dt) :
    dictGet (update_time c).fields "created_time" = some (Json.str (isoformat dt))
      ∧ ∀ k, k ≠ "created_time" →
          dictGet (update_time c).fields k = dictGet c.fields k := by
  simp only [update_time, hct, hdt]
  exact ⟨dictGet_dictSet_same _ _ _,
    fun k hk => dictGet_dictSet_ne _ _ _ _ (fun h => hk h.symm)⟩

theorem update_time_fromId (c : Comment) : (update_time c).fromId? = c.fromId? := by
  unfold update_time
  split
  · next ct heq =>
      split
      · next dt hdt =>
          show (match dictGet (dictSet c.fields "created_time"
              (Json.str (isoformat dt))) "from" with
            | some (.obj fs) =>
                match dictGet fs "id" with
                | some (.str s) => some s
                | _ => none
            | _ => none) = c.fromId?
          rw [dictGet_dictSet_ne _ _ _ _ (by decide)]
          rfl
      · rfl
  · rfl

theorem dictGet_eq_none_iff {α : Type} (l : List (String × α)) (k : String) :
    dictGet l k = none ↔ k ∉ l.map Prod.fst := by
  induction l with
  | nil => simp [dictGet]
  | cons kv rest ih =>
      obtain ⟨k0, v0⟩ := kv
      by_cases h : k0 = k
      · subst h
        simp [dictGet]
      · simp [dictGet, h, ih, Ne.symm h]

theorem dictSet_keys_of_present {α : Type} (l : List (String × α)) (k : String) (v : α)
    (h : dictGet l k ≠ none) : (dictSet l k v).map Prod.fst = l.map Prod.fst := by
  induction l with
  | nil => exact absurd rfl h
  | cons kv rest ih =>
      obtain ⟨k0, v0⟩ := kv
      by_cases hk : k0 = k
      · simp [dictSet, hk]
      · have h2 : dictGet rest k ≠ none := by
          simpa [dictGet, hk] using h
        simp [dictSet, hk, ih h2]

theorem dictSet_keys_of_absent {α : Type} (l : List (String × α)) (k : String) (v : α)
    (h : dictGet l k = none) : (dictSet l k v).map Prod.fst = l.map Prod.fst ++ [k] := by
  induction l with
  | nil => rfl
  | cons kv rest ih =>
      obtain ⟨k0, v0⟩ := kv
      by_cases hk : k0 = k
      · subst hk
        simp [dictGet] at h
      · have h2 : dictGet rest k = none := by
          simpa [dictGet, hk] using h
        simp [dictSet, hk, ih h2]

theorem dictSet_keys_nodup {α : Type} (l : List (String × α)) (k : String) (v : α)
    (hnd : (l.map Prod.fst).Nodup) : ((dictSet l k v).map Prod.fst).Nodup := by
  by_cases h : dictGet l k = none
  · rw [dictSet_keys_of_absent l k v h]
    rw [List.nodup_append]
    exact ⟨hnd, List.nodup_singleton _,
      fun x hx hmem => by
        simp only [List.mem_singleton] at hmem
        subst hmem
        exact (dictGet_eq_none_iff l x).mp h hx⟩
  · rw [dictSet_keys_of_present l k v h]
    exact hnd

theorem update_time_keys_nodup (c : Comment) (hnd : (c.fields.map Prod.fst).Nodup) :
    ((update_time c).fields.map Prod.fst).Nodup := by
  unfold update_time
  split
  · split
    · exact dictSet_keys_nodup _ _ _ hnd
    · exact hnd
  · exact hnd

theorem convert_loop_ok (ds : String) (lut : String → Option String) (cs : List Comment)
    (h : ∀ c ∈ cs, GoodComment lut c) :
    convert_loop ds lut cs
      = .ok (cs.map (fun c =>
            mk_comment_dict ds (lut_uuid lut (update_time c)) (update_time c)),
          cs.map update_time) := by
  induction cs with
  | nil => rfl
  | cons c rest ih =>
      obtain ⟨⟨ct, dt, hct, hdt, hoff⟩, fid, uuid, hfid, hlut⟩ :=
        h c (List.mem_cons_self _ _)
      obtain ⟨hres, hupd⟩ := reserialize_time_ok c ct dt hct hdt hoff
      have hres2 : reserialize_time c = .ok (update_time c) := by rw [hres, ← hupd]
      have hfid2 : (update_time c).fromId? = some fid := by
        rw [update_time_fromId]; exact hfid
      have huuid : lut_uuid lut (update_time c) = uuid := by
        unfold lut_uuid
        rw [hfid2]
        simp [hlut]
      simp only [convert_loop, hres2, hfid2, hlut,
        ih (fun x hx => h x (List.mem_cons_of_mem _ hx)), List.map_cons, huuid]

theorem all_from_ids_ok (cs : List Comment)
    (h : ∀ c ∈ cs, ∃ fid, c.fromId? = some fid) :
    ∃ l, all_from_ids cs = some l := by
  induction cs with
  | nil => exact ⟨[], rfl⟩
  | cons c rest ih =>
      obtain ⟨fid, hfid⟩ := h c (List.mem_cons_self _ _)
      obtain ⟨l, hl⟩ := ih (fun x hx => h x (List.mem_cons_of_mem _ hx))
      refine ⟨fid :: l, ?_⟩
      simp only [all_from_ids] at hl ⊢
      rw [List.mapM_cons, hfid, hl]
      rfl

theorem convert_ok (ds : String) (lut : String → Option String) (cs : List Comment)
    (hgood : ∀ c ∈ cs, GoodComment lut c) :
    convert_facebook_comments_to_traced_data ds lut cs
      = .ok (cs.map (fun c =>
            mk_comment_dict ds (lut_uuid lut (update_time c)) (update_time c)),
          cs.map update_time) := by
  have hids : ∀ c ∈ cs, ∃ fid, c.fromId? = some fid := by
    intro c hc
    obtain ⟨-, fid, uuid, hfid, -⟩ := hgood c hc
    exact ⟨fid, hfid⟩
  obtain ⟨l, hl⟩ := all_from_ids_ok cs hids
  unfold convert_facebook_comments_to_traced_data
  rw [hl]
  exact convert_loop_ok ds lut cs hgood

theorem convert_loop_err (ds : String) (lut : String → Option String) (cs : List Comment)
    (hgood : ∀ c ∈ cs, GoodTime c ∧ ∃ fid, c.fromId? = some fid)
    (hbad : ∃ c ∈ cs, ∃ fid, c.fromId? = some fid ∧ lut fid = none) :
    ∃ fid, lut fid = none ∧ convert_loop ds lut cs = .keyError fid := by
  induction cs with
  | nil => simp at hbad
  | cons c rest ih =>
      obtain ⟨⟨ct, dt, hct, hdt, hoff⟩, fid, hfid⟩ := hgood c (List.mem_cons_self _ _)
      obtain ⟨hres, hupd⟩ := reserialize_time_ok c ct dt hct hdt hoff
      have hres2 : reserialize_time c = .ok (update_time c) := by rw [hres, ← hupd]
      have hfid2 : (update_time c).fromId? = some fid := by
        rw [update_time_fromId]; exact hfid
      cases hl : lut fid with
      | none =>
          exact ⟨fid, hl, by simp only [convert_loop, hres2, hfid2, hl]⟩
      | some uuid =>
          obtain ⟨cbad, hmem, fidb, hfidb, hlutb⟩ := hbad
          rcases List.mem_cons.mp hmem with rfl | hmem
          · rw [hfid] at hfidb
            cases hfidb
            rw [hl] at hlutb
            exact absurd hlutb (by simp)
          · obtain ⟨fid', hlut', herr⟩ :=
              ih (fun x hx => hgood x (List.mem_cons_of_mem _ hx))
                ⟨cbad, hmem, fidb, hfidb, hlutb⟩
            exact ⟨fid', hlut',
              by simp only [convert_loop, hres2, hfid2, hl, herr]⟩

theorem convert_err (ds : String) (lut : String → Option String) (cs : List Comment)
    (hgood : ∀ c ∈ cs, GoodTime c ∧ ∃ fid, c.fromId? = some fid)
    (hbad : ∃ c ∈ cs, ∃ fid, c.fromId? = some fid ∧ lut fid = none) :
    ∃ fid, lut fid = none ∧
      convert_facebook_comments_to_traced_data ds lut cs = .keyError fid := by
  obtain ⟨l, hl⟩ := all_from_ids_ok cs (fun c hc => (hgood c hc).2)
  obtain ⟨fid, h1, h2⟩ := convert_loop_err ds lut cs hgood hbad
  refine ⟨fid, h1, ?_⟩
  unfold convert_facebook_comments_to_traced_data
  rw [hl]
  exact h2

/-- C5: for raw comments whose author ids all resolve in the lookup table's
batch result, the conversion produces for each comment a record mapping
`avf_facebook_id` to the pseudonymous id of that comment's author, and
mapping each comment field `(k, v)` to the namespaced key `dataset_name.k`;
a comment with an unknown author id surfaces the lookup error (a
`KeyError`). -/
theorem claim_C5 (ds : String) (lut : String → Option String) (cs : List Comment)
    (hgood : ∀ c ∈ cs, GoodComment lut c)
    (hnd : ∀ c ∈ cs, (c.fields.map Prod.fst).Nodup) :
    convert_facebook_comments_to_traced_data ds lut cs
        = .ok (cs.map (fun c =>
              mk_comment_dict ds (lut_uuid lut (update_time c)) (update_time c)),
            cs.map update_time)
      ∧ (∀ c ∈ cs, ∀ fid uuid, c.fromId? = some fid → lut fid = some uuid →
          dictGet (mk_comment_dict ds (lut_uuid lut (update_time c)) (update_time c))
              "avf_facebook_id" = some (Json.str uuid))
      ∧ (∀ c ∈ cs, ∀ k v, (k, v) ∈ (update_time c).fields →
          dictGet (mk_comment_dict ds (lut_uuid lut (update_time c)) (update_time c))
              (ds ++ "." ++ k) = some v)
      ∧ (∀ cs' : List Comment,
          (∀ c ∈ cs', GoodTime c ∧ ∃ fid, c.fromId? = some fid) →
          (∃ c ∈ cs', ∃ fid, c.fromId? = some fid ∧ lut fid = none) →
          ∃ fid, lut fid = none ∧
            convert_facebook_comments_to_traced_data ds lut cs' = .keyError fid) := by
  refine ⟨convert_ok ds lut cs hgood, ?_, ?_, fun cs' => convert_err ds lut cs'⟩
  · intro c _ fid uuid hfid hlut
    have huuid : lut_uuid lut (update_time c) = uuid := by
      unfold lut_uuid
      rw [update_time_fromId, hfid]
      simp [hlut]
    rw [mk_comment_dict_avf, huuid]
  · intro c hc k v hm
    exact mk_comment_dict_field ds _ (update_time c)
      (update_time_keys_nodup c (hnd c hc)) k v hm

/-- Witness for C5 at a concrete comment, lookup table and dataset name. -/
theorem claim_C5_witness :
    (∀ c ∈ [c5c], GoodComment c5lut c)
      ∧ (∀ c ∈ [c5c], (c.fields.map Prod.fst).Nodup)
      ∧ convert_facebook_comments_to_traced_data "fb" c5lut [c5c]
          = .ok ([c5c].map (fun c =>
                mk_comment_dict "fb" (lut_uuid c5lut (update_time c)) (update_time c)),
              [c5c].map update_time)
      ∧ dictGet (mk_comment_dict "fb" (lut_uuid c5lut (update_time c5c)) (update_time c5c))
          "avf_facebook_id" = some (Json.str "uuid1")
      ∧ dictGet (mk_comment_dict "fb" (lut_uuid c5lut (update_time c5c)) (update_time c5c))
          ("fb" ++ "." ++ "message") = some (Json.str "hi")
      ∧ (∃ fid, c5lut fid = none ∧
          convert_facebook_comments_to_traced_data "fb" c5lut [c5c, c5unknown]
            = .keyError fid) := by
  have hgood : ∀ c ∈ [c5c], GoodComment c5lut c := by
    intro c hc
    simp only [List.mem_singleton] at hc
    subst hc
    exact ⟨⟨"2020-01-01T10:00:00+0000", ⟨2020, 1, 1, 10, 0, 0, 0, some 0⟩, rfl, rfl, rfl⟩,
      "u1", "uuid1", rfl, rfl⟩
  have hnd : ∀ c ∈ [c5c], (c.fields.map Prod.fst).Nodup := by
    intro c hc
    simp only [List.mem_singleton] at hc
    subst hc
    decide
  have hmain := claim_C5 "fb" c5lut [c5c] hgood hnd
  refine ⟨hgood, hnd, hmain.1, ?_, ?_, ?_⟩
  · exact hmain.2.1 c5c (List.mem_singleton_self _) "u1" "uuid1" rfl rfl
  · exact hmain.2.2.1 c5c (List.mem_singleton_self _) "message" (Json.str "hi")
      (List.mem_cons_of_mem _ (List.mem_cons_of_mem _ (List.mem_cons_self _ _)))
  · exact hmain.2.2.2 [c5c, c5unknown]
      (by
        intro c hc
        rcases List.mem_cons.mp hc with rfl | hc
        · exact ⟨hgood c5c (List.mem_singleton_self _) |>.1, "u1", rfl⟩
        · simp only [List.mem_singleton] at hc
          subst hc
          exact ⟨⟨"2020-01-01T10:00:00+0000", ⟨2020, 1, 1, 10, 0, 0, 0, some 0⟩,
            rfl, rfl, rfl⟩, "u2", rfl⟩)
      ⟨c5unknown, List.mem_cons_of_mem _ (List.mem_singleton_self _), "u2", rfl, rfl⟩

/-- C8 (amended): a comment timestamp that parses with an explicit UTC (zero)
offset is re-serialized and the stored string passes UTC validation; a
timestamp whose parsed offset is not UTC (a non-zero offset, or none at all)
fails the validation, so the conversion raises instead of storing a
validated value. -/
theorem claim_C8 (c : Comment) (ct : String) (dt : PyDatetime)
    (hct : dictGet c.fields "created_time" = some (Json.str ct))
    (hdt : pyIsoparse ct = some dt) :
    (dt.offsetMinutes = some 0 →
        reserialize_time c = .ok (update_time c)
          ∧ dictGet (update_time c).fields "created_time"
              = some (Json.str (isoformat dt))
          ∧ validate_utc_iso_string (isoformat dt) = true)
      ∧ (dt.offsetMinutes ≠ some 0 → reserialize_time c = .assertionError) := by
  have hwf := pyIsoparse_wf ct dt hdt
  constructor
  · intro hoff
    obtain ⟨hres, hupd⟩ := reserialize_time_ok c ct dt hct hdt hoff
    refine ⟨by rw [hres, ← hupd], (update_time_fields c ct dt hct hdt).1, ?_⟩
    rw [validate_isoformat dt hwf, hoff]
    simp
  · intro hoff
    have hval : validate_utc_iso_string (isoformat dt) = false := by
      rw [validate_isoformat dt hwf]
      simpa using hoff
    simp only [reserialize_time, hct, hdt, hval]
    rw [if_neg (by simp)]

/-- Counterexample to C8 as stated: on a comment whose timestamp carries a
non-UTC offset the conversion raises (the validator rejects the re-serialized
string), so it is not true that every input timestamp is stored as a
validated UTC ISO string. -/
theorem claim_C8_counterexample :
    convert_facebook_comments_to_traced_data "fb" (fun _ => some "uuid1") [c8bad]
      = .assertionError := rfl

/-- Witness for C8 (amended) at concrete comments: the UTC-offset timestamp
is stored re-serialized (`+0000` becomes `+00:00`) and validates; the
`+03:00` one raises. -/
theorem claim_C8_witness :
    dictGet c8good.fields "created_time" = some (Json.str "2020-01-01T10:00:00+0000")
      ∧ pyIsoparse "2020-01-01T10:00:00+0000"
          = some ⟨2020, 1, 1, 10, 0, 0, 0, some 0⟩
      ∧ (reserialize_time c8good = .ok (update_time c8good)
          ∧ dictGet (update_time c8good).fields "created_time"
              = some (Json.str "2020-01-01T10:00:00+00:00")
          ∧ validate_utc_iso_string "2020-01-01T10:00:00+00:00" = true)
      ∧ reserialize_time c8bad = .assertionError := by
  refine ⟨rfl, rfl, ?_, ?_⟩
  · exact (claim_C8 c8good "2020-01-01T10:00:00+0000"
      ⟨2020, 1, 1, 10, 0, 0, 0, some 0⟩ rfl rfl).1 rfl
  · exact (claim_C8 c8bad "2020-01-01T10:00:00+03:00"
      ⟨2020, 1, 1, 10, 0, 0, 0, some 180⟩ rfl rfl).2 (by decide)

/-- C9: the conversion mutates its `raw_comments` argument in place — after
a successful call (modelled by the second component of the returned pair)
every input comment's `created_time` has been overwritten with the
re-serialized timestamp, while every other field of every input comment is
unchanged. -/
theorem claim_C9 (ds : String) (lut : String → Option String) (cs : List Comment)
    (hgood : ∀ c ∈ cs, GoodComment lut c) :
    convert_facebook_comments_to_traced_data ds lut cs
        = .ok (cs.map (fun c =>
              mk_comment_dict ds (lut_uuid lut (update_time c)) (update_time c)),
            cs.map update_time)
      ∧ (∀ c ∈ cs, ∀ ct dt,
          dictGet c.fields "created_time" = some (Json.str ct) →
          pyIsoparse ct = some dt →
            dictGet (update_time c).fields "created_time"
                = some (Json.str (isoformat dt))
              ∧ ∀ k, k ≠ "created_time" →
                  dictGet (update_time c).fields k = dictGet c.fields k) :=
  ⟨convert_ok ds lut cs hgood,
    fun c _ ct dt hct hdt => update_time_fields c ct dt hct hdt⟩

/-- Witness for C9 at a concrete comment: `created_time` is overwritten with
the re-serialized timestamp (`+0000` becomes `+00:00`) and the `message` and
`from` fields are untouched. -/
theorem claim_C9_witness :
    (∀ c ∈ [c5c], GoodComment c5lut c)
      ∧ convert_facebook_comments_to_traced_data "fb" c5lut [c5c]
          = .ok ([c5c].map (fun c =>
                mk_comment_dict "fb" (lut_uuid c5lut (update_time c)) (update_time c)),
              [c5c].map update_time)
      ∧ dictGet (update_time c5c).fields "created_time"
          = some (Json.str "2020-01-01T10:00:00+00:00")
      ∧ dictGet (update_time c5c).fields "message" = dictGet c5c.fields "message"
      ∧ dictGet (update_time c5c).fields "from" = dictGet c5c.fields "from" := by
  have hgood : ∀ c ∈ [c5c], GoodComment c5lut c := by
    intro c hc
    simp only [List.mem_singleton] at hc
    subst hc
    exact ⟨⟨"2020-01-01T10:00:00+0000", ⟨2020, 1, 1, 10, 0, 0, 0, some 0⟩, rfl, rfl, rfl⟩,
      "u1", "uuid1", rfl, rfl⟩
  have hmain := claim_C9 "fb" c5lut [c5c] hgood
  have hupd := hmain.2 c5c (List.mem_singleton_self _) "2020-01-01T10:00:00+0000"
    ⟨2020, 1, 1, 10, 0, 0, 0, some 0⟩ rfl rfl
  exact ⟨hgood, hmain.1, hupd.1, hupd.2 "message" (by decide), hupd.2 "from" (by decide)⟩
